import Mathlib

/-!
# Drawing-Pad: the stroke store, its persistence and the redraw pipeline

A shallow embedding of `src/script.js`.  The module-level variables of the script, the
values of the page controls it reads and writes, the three `localStorage` keys it uses and
the log of operations issued on the 2D canvas context form one explicit `State`; every
handler of the script is a function on that state.

Conventions of the embedding:

* a JavaScript string is the list of its UTF-16 code units (`JSString`);
* a Number held in a variable or written to a text is a finite decimal in lowest form
  (`Dec`), standing for the double nearest to it and printed as that decimal; `NaN`, the
  infinities and the negative zero are left out.  The one computation of the script,
  `Math.ceil(max * c)`, is done in doubles, rounded to nearest with ties to even
  (`Dec.toDouble`, `Double.mul`), and gives a whole number;
* `JSON.stringify` and `JSON.parse` are the functions of the language standard, embedded
  here on the values the script gives them: the stroke array is typed (`Stroke`), and a
  persisted text is classified as no JSON, a stroke array, or JSON of another shape;
* the markup of the page is not part of the sources: the initial values of the controls
  and the `max` of the width control are parameters (`Page`); a control stores the value
  assigned to it unchanged, and a write to `localStorage` always succeeds;
* an uncaught exception ends the running handler and keeps the effects it had up to that
  point: a handler returns the state it leaves behind together with the error, if any.
-/

namespace DrawingPad

/-! ## JavaScript values -/

/-- A JavaScript string, as the sequence of its UTF-16 code units. -/
abbrev JSString := List Nat

/-- The code units of a string literal (used for ASCII literals of the script only). -/
def js (s : String) : JSString := s.toList.map Char.toNat

/-- A finite JavaScript number as the decimal it is written and printed as:
`mant / 10 ^ scale`, with no trailing zero in the fraction, so that equal numbers are equal
terms. -/
structure Dec where
  mant : Int
  scale : Nat
  canon : scale = 0 ∨ mant % 10 ≠ 0
deriving DecidableEq

/-- The number `m / 10 ^ s` in lowest decimal form. -/
def Dec.normalize (m : Int) : Nat → Dec
  | 0 => ⟨m, 0, Or.inl rfl⟩
  | s + 1 => if h : m % 10 = 0 then Dec.normalize (m / 10) s else ⟨m, s + 1, Or.inr h⟩

/-- An integer as a number. -/
def Dec.ofInt (z : Int) : Dec := ⟨z, 0, Or.inl rfl⟩

/-- The number of binary digits of `n` (`0` for `0`), by halving with fuel. -/
def bitLengthAux : Nat → Nat → Nat
  | 0, _ => 0
  | f + 1, n => if n = 0 then 0 else bitLengthAux f (n / 2) + 1

/-- The number of binary digits of `n` (`0` for `0`). -/
def bitLength (n : Nat) : Nat := bitLengthAux n n

/-- The fraction `num / den` divided by `2 ^ e`, as a fraction of natural numbers. -/
def scaled (num den : Nat) (e : Int) : Nat × Nat :=
  if 0 ≤ e then (num, den * 2 ^ e.toNat) else (num * 2 ^ (-e).toNat, den)

/-- The integer nearest to `a / b`, a tie going to the even one. -/
def roundHalfEven (a b : Nat) : Nat :=
  if 2 * (a % b) < b then a / b
  else if b < 2 * (a % b) then a / b + 1
  else a / b + (a / b) % 2

/-- The exponent of the last binary place of the double nearest to `num / den`: the
significand has 53 binary digits, and the exponent is never below `-1074`, that of the
subnormal numbers. -/
def binaryExponent (num den : Nat) : Int :=
  let e0 : Int := (bitLength num : Int) - (bitLength den : Int) - 53
  let e1 : Int :=
    if 2 ^ 53 * (scaled num den e0).2 ≤ (scaled num den e0).1 then e0 + 1 else e0
  max e1 (-1074)

/-- A finite IEEE 754 double, the Number of the script's arithmetic: `mant * 2 ^ exp`,
negated when `neg`.  Overflow to an infinity is left out. -/
structure Double where
  neg : Bool
  mant : Nat
  exp : Int

/-- The double nearest to `num / den`, ties to even, with the given sign. -/
def roundToDouble (neg : Bool) (num den : Nat) : Double :=
  if num = 0 then ⟨neg, 0, 0⟩
  else
    ⟨neg, roundHalfEven (scaled num den (binaryExponent num den)).1
      (scaled num den (binaryExponent num den)).2, binaryExponent num den⟩

/-- The Number a decimal numeral denotes (a literal such as `0.75`, or the numeric string
`lineWidthInput.max` converted by `*`): the double nearest to it. -/
def Dec.toDouble (d : Dec) : Double :=
  roundToDouble (decide (d.mant < 0)) d.mant.natAbs (10 ^ d.scale)

/-- The product `a * b` of two Numbers: the double nearest to the exact product. -/
def Double.mul (a b : Double) : Double :=
  roundToDouble (xor a.neg b.neg) (scaled (a.mant * b.mant) 1 (-(a.exp + b.exp))).1
    (scaled (a.mant * b.mant) 1 (-(a.exp + b.exp))).2

/-- The function `Math.ceil`: the least integer not below the Number. -/
def Math_ceil (x : Double) : Dec :=
  let v : Int := if x.neg then -(x.mant : Int) else (x.mant : Int)
  if 0 ≤ x.exp then Dec.ofInt (v * 2 ^ x.exp.toNat)
  else Dec.ofInt (-((-v) / 2 ^ (-x.exp).toNat))

/-- The `k` low decimal digits of `n`, most significant first, as code units. -/
def fixedDigits : Nat → Nat → List Nat
  | 0, _ => []
  | k + 1, n => (48 + (n / 10 ^ k) % 10) :: fixedDigits k n

/-- The number of decimal digits of `n` (at least one), by division with fuel. -/
def numDigitsAux : Nat → Nat → Nat
  | 0, _ => 1
  | f + 1, n => if n < 10 then 1 else numDigitsAux f (n / 10) + 1

/-- The number of decimal digits of `n`. -/
def numDigits (n : Nat) : Nat := numDigitsAux n n

/-- The decimal numeral of a natural number. -/
def natToString (n : Nat) : JSString := fixedDigits (numDigits n) n

/-- The conversion `Number::toString` (radix 10) on the decimal range printed without an
exponent: optional sign, integer digits, and the fraction digits after a point. -/
def numberToString (d : Dec) : JSString :=
  (if d.mant < 0 then [45] else []) ++
    natToString (d.mant.natAbs / 10 ^ d.scale) ++
    (if d.scale = 0 then [] else 46 :: fixedDigits d.scale (d.mant.natAbs % 10 ^ d.scale))

/-- A value held by `lineWidth` or `opacity`: a number (the script's own constants) or a
string (the `value` of a control). -/
inductive Scalar where
  | num (d : Dec)
  | str (s : JSString)
deriving DecidableEq

/-- One point `[x, y]` of a stroke. -/
abbrev Point := Dec × Dec

/-- One element of `allLines`: the object literal built by `startDrawing`. -/
structure Stroke where
  color : JSString
  lineWidth : Scalar
  opacity : Scalar
  points : List Point
deriving DecidableEq

/-- The errors a handler can raise. -/
inductive JSError where
  | typeError
  | syntaxError
deriving DecidableEq

/-! ## `JSON.stringify` on the stroke list -/

/-- One lower-case hexadecimal digit, as a code unit. -/
def hexDigit (n : Nat) : Nat := if n < 10 then 48 + n else 87 + n

/-- The escape `\uXXXX` of a code unit. -/
def unicodeEscape (c : Nat) : List Nat :=
  [92, 117, hexDigit (c / 4096 % 16), hexDigit (c / 256 % 16), hexDigit (c / 16 % 16),
    hexDigit (c % 16)]

/-- A leading (high) surrogate code unit. -/
def isHighSurrogate (c : Nat) : Bool := 0xD800 ≤ c && c ≤ 0xDBFF

/-- A trailing (low) surrogate code unit. -/
def isLowSurrogate (c : Nat) : Bool := 0xDC00 ≤ c && c ≤ 0xDFFF

/-- The text of one code unit that is not part of a surrogate pair, inside a JSON string. -/
def quoteUnit (c : Nat) : List Nat :=
  if c = 8 then [92, 98]
  else if c = 9 then [92, 116]
  else if c = 10 then [92, 110]
  else if c = 12 then [92, 102]
  else if c = 13 then [92, 114]
  else if c = 34 then [92, 34]
  else if c = 92 then [92, 92]
  else if c < 32 || isHighSurrogate c || isLowSurrogate c then unicodeEscape c
  else [c]

/-- The body of `QuoteJSONString`: a surrogate pair is copied, every other code unit goes
through `quoteUnit` (which escapes a lone surrogate). -/
def quoteUnits : JSString → List Nat
  | [] => []
  | [c] => quoteUnit c
  | c :: d :: rest =>
    if isHighSurrogate c && isLowSurrogate d then c :: d :: quoteUnits rest
    else quoteUnit c ++ quoteUnits (d :: rest)

/-- The operation `QuoteJSONString`: the string between double quotes, escaped. -/
def quoteJSONString (s : JSString) : List Nat := [34] ++ quoteUnits s ++ [34]

/-- The JSON text of a number or a string. -/
def stringifyScalar : Scalar → List Nat
  | .num d => numberToString d
  | .str s => quoteJSONString s

/-- The texts of a list, separated by commas. -/
def joinComma : List (List Nat) → List Nat
  | [] => []
  | [x] => x
  | x :: y :: rest => x ++ 44 :: joinComma (y :: rest)

/-- The JSON text of a point: `[x,y]`. -/
def stringifyPoint (p : Point) : List Nat :=
  [91] ++ numberToString p.1 ++ [44] ++ numberToString p.2 ++ [93]

/-- The JSON text of a stroke: its four properties in creation order. -/
def stringifyStroke (l : Stroke) : List Nat :=
  [123] ++ quoteJSONString (js "color") ++ [58] ++ quoteJSONString l.color ++ [44] ++
    quoteJSONString (js "lineWidth") ++ [58] ++ stringifyScalar l.lineWidth ++ [44] ++
    quoteJSONString (js "opacity") ++ [58] ++ stringifyScalar l.opacity ++ [44] ++
    quoteJSONString (js "points") ++ [58] ++
    [91] ++ joinComma (l.points.map stringifyPoint) ++ [93] ++ [125]

/-- The call `JSON.stringify(allLines)`. -/
def JSON_stringify (lines : List Stroke) : JSString :=
  [91] ++ joinComma (lines.map stringifyStroke) ++ [93]

/-! ## `JSON.parse` on a persisted text -/

/-- The lexical tokens of the JSON grammar. -/
inductive Token where
  | lbracket
  | rbracket
  | lbrace
  | rbrace
  | comma
  | colon
  | str (s : JSString)
  | num (d : Dec)
  | litTrue
  | litFalse
  | litNull
deriving DecidableEq

/-- The value of a hexadecimal digit, in either case. -/
def hexValue (c : Nat) : Option Nat :=
  if 48 ≤ c && c ≤ 57 then some (c - 48)
  else if 97 ≤ c && c ≤ 102 then some (c - 87)
  else if 65 ≤ c && c ≤ 70 then some (c - 55)
  else none

/-- The code unit denoted by a one-letter escape: the cases of `\"`, `\\`, `\/`, `\b`,
`\f`, `\n`, `\r`, `\t`. -/
def unescape (e : Nat) : Option Nat :=
  if e = 34 then some 34
  else if e = 92 then some 92
  else if e = 47 then some 47
  else if e = 98 then some 8
  else if e = 102 then some 12
  else if e = 110 then some 10
  else if e = 114 then some 13
  else if e = 116 then some 9
  else none

/-- A string token after its opening quote: the decoded code units up to the closing
quote, and the text after it.  A raw control character and a bad escape are errors. -/
def lexStringBody : List Nat → Option (JSString × List Nat)
  | [] => none
  | c :: rest =>
    if c = 34 then some ([], rest)
    else if c = 92 then
      match rest with
      | [] => none
      | e :: r =>
        if e = 117 then
          match r with
          | h1 :: h2 :: h3 :: h4 :: r4 =>
            match hexValue h1, hexValue h2, hexValue h3, hexValue h4 with
            | some x, some y, some z, some w =>
              (lexStringBody r4).map (fun q => ((x * 4096 + y * 256 + z * 16 + w) :: q.1, q.2))
            | _, _, _, _ => none
          | _ => none
        else
          match unescape e with
          | some u => (lexStringBody r).map (fun q => (u :: q.1, q.2))
          | none => none
    else if c < 32 then none
    else (lexStringBody rest).map (fun q => (c :: q.1, q.2))

/-- A decimal digit. -/
def isDigit (c : Nat) : Bool := 48 ≤ c && c ≤ 57

/-- The longest run of decimal digits at the head of a text, and the text after it. -/
def spanDigits : List Nat → List Nat × List Nat
  | [] => ([], [])
  | c :: r => if isDigit c then ((c :: (spanDigits r).1), (spanDigits r).2) else ([], c :: r)

/-- The natural number written by a run of decimal digits. -/
def digitsValue (ds : List Nat) : Nat := ds.foldl (fun a c => 10 * a + (c - 48)) 0

/-- The number `m * 10 ^ e`. -/
def Dec.scale10 (m : Int) (e : Int) : Dec :=
  if 0 ≤ e then Dec.ofInt (m * 10 ^ e.toNat) else Dec.normalize m (-e).toNat

/-- The optional exponent part of a number token (`e` or `E`, an optional sign, digits):
its value and the text after it; `none` when the part is started and not well formed. -/
def lexExponent : List Nat → Option (Int × List Nat)
  | [] => some (0, [])
  | c :: r =>
    if c = 101 || c = 69 then
      match r with
      | [] => none
      | sg :: r2 =>
        if sg = 45 then
          (if (spanDigits r2).1 = [] then none
           else some (-(digitsValue (spanDigits r2).1 : Int), (spanDigits r2).2))
        else if sg = 43 then
          (if (spanDigits r2).1 = [] then none
           else some ((digitsValue (spanDigits r2).1 : Int), (spanDigits r2).2))
        else
          (if (spanDigits r).1 = [] then none
           else some ((digitsValue (spanDigits r).1 : Int), (spanDigits r).2))
    else some (0, c :: r)

/-- The optional fraction part of a number token (a point and digits): its digits and the
text after it; `none` when a point is not followed by a digit. -/
def lexFraction : List Nat → Option (List Nat × List Nat)
  | [] => some ([], [])
  | c :: r =>
    if c = 46 then (if (spanDigits r).1 = [] then none else some (spanDigits r))
    else some ([], c :: r)

/-- An unsigned number token: integer digits without a superfluous leading zero, an
optional fraction and an optional exponent. -/
def lexUnsigned (input : List Nat) : Option (Int × Int × List Nat) :=
  let ip := (spanDigits input).1
  if ip = [] then none
  else if ip.head? = some 48 && 1 < ip.length then none
  else
    match lexFraction (spanDigits input).2 with
    | none => none
    | some (fd, s3) =>
      match lexExponent s3 with
      | none => none
      | some (e, s4) => some ((digitsValue (ip ++ fd) : Int), e - (fd.length : Int), s4)

/-- A number token, with its optional minus sign: the number and the text after it. -/
def lexNumber (input : List Nat) : Option (Dec × List Nat) :=
  if input.head? = some 45 then
    match lexUnsigned input.tail with
    | some (m, e, s) => some (Dec.scale10 (-m) e, s)
    | none => none
  else
    match lexUnsigned input with
    | some (m, e, s) => some (Dec.scale10 m e, s)
    | none => none

/-- The text after a given literal word, when the text starts with it. -/
def stripWord : List Nat → List Nat → Option (List Nat)
  | [], t => some t
  | _ :: _, [] => none
  | w :: ws, c :: t => if w = c then stripWord ws t else none

/-- JSON white space: tab, line feed, carriage return, space. -/
def isWhitespace (c : Nat) : Bool := c = 9 || c = 10 || c = 13 || c = 32

/-- The tokens of a text; `none` when some part of it is no token.  Every step consumes
at least one code unit, the fuel bounds the number of steps. -/
def lex : Nat → List Nat → Option (List Token)
  | _, [] => some []
  | 0, _ :: _ => none
  | fuel + 1, c :: rest =>
    if isWhitespace c then lex fuel rest
    else if c = 91 then (lex fuel rest).map (fun ts => Token.lbracket :: ts)
    else if c = 93 then (lex fuel rest).map (fun ts => Token.rbracket :: ts)
    else if c = 123 then (lex fuel rest).map (fun ts => Token.lbrace :: ts)
    else if c = 125 then (lex fuel rest).map (fun ts => Token.rbrace :: ts)
    else if c = 44 then (lex fuel rest).map (fun ts => Token.comma :: ts)
    else if c = 58 then (lex fuel rest).map (fun ts => Token.colon :: ts)
    else if c = 34 then
      match lexStringBody rest with
      | some (s, r) => (lex fuel r).map (fun ts => Token.str s :: ts)
      | none => none
    else if c = 45 || isDigit c then
      match lexNumber (c :: rest) with
      | some (d, r) => (lex fuel r).map (fun ts => Token.num d :: ts)
      | none => none
    else if c = 116 then
      match stripWord (js "rue") rest with
      | some r => (lex fuel r).map (fun ts => Token.litTrue :: ts)
      | none => none
    else if c = 102 then
      match stripWord (js "alse") rest with
      | some r => (lex fuel r).map (fun ts => Token.litFalse :: ts)
      | none => none
    else if c = 110 then
      match stripWord (js "ull") rest with
      | some r => (lex fuel r).map (fun ts => Token.litNull :: ts)
      | none => none
    else none

/-- The kind of an enclosing container while a token sequence is read. -/
inductive Frame where
  | arr
  | obj
deriving DecidableEq

/-- What the JSON grammar allows next. -/
inductive Expect where
  | value
  | valueOrClose
  | key
  | keyOrClose
  | colon
  | next
deriving DecidableEq

/-- A token that is a whole value: a string, a number or a literal. -/
def Token.isScalar : Token → Bool
  | .str _ => true
  | .num _ => true
  | .litTrue => true
  | .litFalse => true
  | .litNull => true
  | _ => false

/-- Whether the rest of a token sequence completes one JSON value, given what is expected
next and the stack of containers that are still open. -/
def accepts : Expect → List Frame → List Token → Bool
  | e, stack, [] => e = Expect.next && stack = []
  | .value, stack, t :: ts =>
    if t.isScalar then accepts .next stack ts
    else if t = .lbracket then accepts .valueOrClose (Frame.arr :: stack) ts
    else if t = .lbrace then accepts .keyOrClose (Frame.obj :: stack) ts
    else false
  | .valueOrClose, stack, t :: ts =>
    if t.isScalar then accepts .next stack ts
    else if t = .lbracket then accepts .valueOrClose (Frame.arr :: stack) ts
    else if t = .lbrace then accepts .keyOrClose (Frame.obj :: stack) ts
    else if t = .rbracket then accepts .next stack.tail ts
    else false
  | .key, stack, t :: ts =>
    match t with
    | .str _ => accepts .colon stack ts
    | _ => false
  | .keyOrClose, stack, t :: ts =>
    match t with
    | .str _ => accepts .colon stack ts
    | .rbrace => accepts .next stack.tail ts
    | _ => false
  | .colon, stack, t :: ts => if t = .colon then accepts .value stack ts else false
  | .next, stack, t :: ts =>
    match stack with
    | [] => false
    | Frame.arr :: up =>
      if t = .comma then accepts .value stack ts
      else if t = .rbracket then accepts .next up ts
      else false
    | Frame.obj :: up =>
      if t = .comma then accepts .key stack ts
      else if t = .rbrace then accepts .next up ts
      else false

/-- Whether a token sequence is one JSON value. -/
def validJSON (ts : List Token) : Bool := accepts .value [] ts

/-- A string or a number as the value of `lineWidth` or `opacity`. -/
def decodeScalar : Token → Option Scalar
  | .num d => some (.num d)
  | .str s => some (.str s)
  | _ => none

/-- The points of a stroke after a first one: `]`, or a comma and one more point. -/
def decodePointsTail : List Token → Option (List Point × List Token)
  | .rbracket :: r => some ([], r)
  | .comma :: .lbracket :: .num x :: .comma :: .num y :: .rbracket :: r =>
    (decodePointsTail r).map (fun q => ((x, y) :: q.1, q.2))
  | _ => none

/-- The array of points after its opening bracket, and the tokens after it. -/
def decodePoints : List Token → Option (List Point × List Token)
  | .rbracket :: r => some ([], r)
  | .lbracket :: .num x :: .comma :: .num y :: .rbracket :: r =>
    (decodePointsTail r).map (fun q => ((x, y) :: q.1, q.2))
  | _ => none

/-- One stroke object as `saveDrawingData` writes it (the four properties `color`,
`lineWidth`, `opacity`, `points` in this order), and the tokens after it. -/
def decodeStroke : List Token → Option (Stroke × List Token)
  | .lbrace :: .str k1 :: .colon :: .str c :: .comma :: .str k2 :: .colon :: w :: .comma ::
      .str k3 :: .colon :: o :: .comma :: .str k4 :: .colon :: .lbracket :: r =>
    if k1 = js "color" ∧ k2 = js "lineWidth" ∧ k3 = js "opacity" ∧ k4 = js "points" then
      match decodeScalar w, decodeScalar o, decodePoints r with
      | some lw, some op, some (pts, .rbrace :: r2) => some (⟨c, lw, op, pts⟩, r2)
      | _, _, _ => none
    else none
  | _ => none

/-- The strokes of the array after a first one, up to the end of the tokens. -/
def decodeLinesTail : Nat → List Token → Option (List Stroke)
  | _, [.rbracket] => some []
  | fuel + 1, .comma :: r =>
    match decodeStroke r with
    | some (l, r2) => (decodeLinesTail fuel r2).map (fun ls => l :: ls)
    | none => none
  | _, _ => none

/-- A whole token sequence as an array of stroke objects. -/
def decodeLines : List Token → Option (List Stroke)
  | [.lbracket, .rbracket] => some []
  | .lbracket :: r =>
    match decodeStroke r with
    | some (l, r2) => (decodeLinesTail r2.length r2).map (fun ls => l :: ls)
    | none => none
  | _ => none

/-- The result of `JSON.parse` as far as the script depends on it. -/
inductive Parsed where
  /-- the text is not JSON: the call throws a `SyntaxError` -/
  | syntaxError
  /-- the value is an array of stroke objects of the shape `saveDrawingData` writes -/
  | lines (ls : List Stroke)
  /-- the text is JSON of another shape, which this development does not follow further -/
  | other
deriving DecidableEq

/-- The call `JSON.parse(text)`: a `SyntaxError` exactly when the text is not one JSON
value. -/
def JSON_parse (text : JSString) : Parsed :=
  match lex (text.length + 1) text with
  | none => .syntaxError
  | some ts =>
    if validJSON ts then
      match decodeLines ts with
      | some ls => .lines ls
      | none => .other
    else .syntaxError

/-! ## The page: canvas context, storage, controls and script variables -/

/-- One operation issued on the 2D context `ctx`, in the order of issue.  `clearRect` and
`fillRect` are always called on the whole canvas `(0, 0, canvas.width, canvas.height)`. -/
inductive Op where
  | clearRect
  | setFillStyle (c : JSString)
  | fillRect
  | setLineWidth (w : Scalar)
  | setLineCap (v : JSString)
  | setLineJoin (v : JSString)
  | setGlobalAlpha (a : Scalar)
  | beginPath
  | moveTo (x y : Dec)
  | lineTo (x y : Dec)
  | setStrokeStyle (c : JSString)
  | stroke
deriving DecidableEq

/-- The three keys of `localStorage` the script uses; `none` is an absent key. -/
structure Storage where
  savedNotes : Option JSString
  allLines : Option JSString
  canvasColor : Option JSString
deriving DecidableEq

/-- The pointer event data the handlers read. -/
structure MouseEvent where
  offsetX : Dec
  offsetY : Dec
deriving DecidableEq

/-- The script variables (lines 17-25; `lastX` and `lastY` are never read), the values of
the controls, the storage and the log of context operations. -/
structure State where
  isDrawing : Bool
  color : JSString
  canvasColor : JSString
  lineWidth : Scalar
  opacity : Scalar
  allLines : List Stroke
  colorPicker_value : JSString
  canvasColorPicker_value : JSString
  lineWidthInput_value : JSString
  lineWidthInput_max : Dec
  opacityInput_value : JSString
  notesTextarea_value : JSString
  localStorage : Storage
  ctx : List Op
deriving DecidableEq

/-- What a handler leaves behind: the state, and the exception it ended with, if any. -/
structure Outcome where
  state : State
  error : Option JSError
deriving DecidableEq

/-- The number `0.1`. -/
def Dec.tenth : Dec := ⟨1, 1, by decide⟩

/-- The number `0.8`. -/
def Dec.eightTenths : Dec := ⟨8, 1, by decide⟩

/-- The number `0.75`. -/
def Dec.threeQuarters : Dec := ⟨75, 2, by decide⟩

/-- The number `1.0`. -/
def Dec.one : Dec := Dec.ofInt 1

/-- The condition `if (v)` on a value read with `getItem`: present and not empty. -/
def truthy : Option JSString → Bool
  | some (_ :: _) => true
  | _ => false

/-- The function `saveDrawingData` (lines 58-61). -/
def saveDrawingData (s : State) : State :=
  let storage1 := { s.localStorage with allLines := some (JSON_stringify s.allLines) }
  let storage2 := { storage1 with canvasColor := some s.canvasColor }
  { s with localStorage := storage2 }

/-- The function `fillCanvasBackground` (lines 130-133). -/
def fillCanvasBackground (s : State) : State :=
  { s with ctx := s.ctx ++ [Op.setFillStyle s.canvasColor, Op.fillRect] }

/-- The loop `for (let i = 1; i < line.points.length; i++) ctx.lineTo(...)` from index `i`
on; the fuel bounds the number of iterations. -/
def lineToLoop (points : List Point) : Nat → Nat → List Op → List Op
  | 0, _, ctx => ctx
  | fuel + 1, i, ctx =>
    if i < points.length then
      match points[i]? with
      | some p => lineToLoop points fuel (i + 1) (ctx ++ [Op.lineTo p.1 p.2])
      | none => ctx
    else ctx

/-- The body of the `forEach` callback of `redrawCanvas` (lines 109-122) for one stroke.
Reading `line.points[0][0]` of a stroke without points throws a `TypeError`. -/
def drawOne (ctx : List Op) (line : Stroke) : List Op × Option JSError :=
  let ctx1 := ctx ++ [Op.setLineWidth line.lineWidth]
  let ctx2 := ctx1 ++ [Op.setLineCap (js "round")]
  let ctx3 := ctx2 ++ [Op.setLineJoin (js "round")]
  let ctx4 := ctx3 ++ [Op.setGlobalAlpha line.opacity]
  let ctx5 := ctx4 ++ [Op.beginPath]
  match line.points[0]? with
  | none => (ctx5, some JSError.typeError)
  | some p0 =>
    let ctx6 := ctx5 ++ [Op.moveTo p0.1 p0.2]
    let ctx7 := lineToLoop line.points line.points.length 1 ctx6
    let ctx8 := ctx7 ++ [Op.setStrokeStyle line.color]
    (ctx8 ++ [Op.stroke], none)

/-- The call `allLines.forEach(...)` of `redrawCanvas`: the strokes in order, up to the
first exception. -/
def forEachLine : List Op → List Stroke → List Op × Option JSError
  | ctx, [] => (ctx, none)
  | ctx, line :: rest =>
    match drawOne ctx line with
    | (ctx1, some err) => (ctx1, some err)
    | (ctx1, none) => forEachLine ctx1 rest

/-- The function `redrawCanvas` (lines 104-127). -/
def redrawCanvas (s : State) : Outcome :=
  let s1 := { s with ctx := s.ctx ++ [Op.clearRect] }
  let s2 := fillCanvasBackground s1
  match forEachLine s2.ctx s2.allLines with
  | (ctx1, some err) => ⟨{ s2 with ctx := ctx1 }, some err⟩
  | (ctx1, none) => ⟨{ s2 with ctx := ctx1 ++ [Op.setGlobalAlpha (Scalar.num Dec.one)] }, none⟩

/-- The function `startDrawing` (lines 81-91). -/
def startDrawing (s : State) (e : MouseEvent) : State :=
  let s1 := { s with isDrawing := true }
  let line : Stroke :=
    { color := s1.color, lineWidth := s1.lineWidth, opacity := s1.opacity,
      points := [(e.offsetX, e.offsetY)] }
  let s2 := { s1 with allLines := s1.allLines ++ [line] }
  saveDrawingData s2

/-- The function `drawLine` (lines 94-101).  With an empty `allLines` the element
`allLines[allLines.length - 1]` is `undefined` and reading its `points` throws. -/
def drawLine (s : State) (e : MouseEvent) : Outcome :=
  if !s.isDrawing then ⟨s, none⟩
  else
    match s.allLines[s.allLines.length - 1]? with
    | none => ⟨s, some JSError.typeError⟩
    | some currentLine =>
      let pushed : Stroke :=
        { currentLine with points := currentLine.points ++ [(e.offsetX, e.offsetY)] }
      let s1 := { s with allLines := s.allLines.set (s.allLines.length - 1) pushed }
      redrawCanvas s1

/-- The function `stopDrawing` (lines 136-139). -/
def stopDrawing (s : State) : State :=
  let s1 := { s with isDrawing := false }
  saveDrawingData s1

/-- The function `updatePenColor` (lines 142-144). -/
def updatePenColor (s : State) : State := { s with color := s.colorPicker_value }

/-- The function `updateLineWidth` (lines 155-157). -/
def updateLineWidth (s : State) : State :=
  { s with lineWidth := Scalar.str s.lineWidthInput_value }

/-- The function `updateOpacity` (lines 160-162). -/
def updateOpacity (s : State) : State := { s with opacity := Scalar.str s.opacityInput_value }

/-- The function `resetCanvas` (lines 200-205). -/
def resetCanvas (s : State) : State :=
  let s1 := { s with ctx := s.ctx ++ [Op.clearRect] }
  let s2 := fillCanvasBackground s1
  let s3 := { s2 with allLines := [] }
  saveDrawingData s3

/-- The function `updateCanvasColor` (lines 147-152). -/
def updateCanvasColor (s : State) : State :=
  let s1 := { s with canvasColor := s.canvasColorPicker_value }
  let s2 := fillCanvasBackground s1
  let s3 := resetCanvas s2
  saveDrawingData s3

/-- The function `setPenMode` (lines 165-173). -/
def setPenMode (s : State) : State :=
  let s1 := { s with opacityInput_value := numberToString Dec.one }
  let s2 := { s1 with opacity := Scalar.num Dec.one }
  let product := Double.mul s2.lineWidthInput_max.toDouble Dec.tenth.toDouble
  let width := Math_ceil product
  let s3 := { s2 with lineWidthInput_value := numberToString width }
  let s4 := { s3 with color := js "#000000" }
  let s5 := { s4 with colorPicker_value := js "#000000" }
  let s6 := updatePenColor s5
  updateLineWidth s6

/-- The function `setBrushMode` (lines 176-184). -/
def setBrushMode (s : State) : State :=
  let s1 := { s with opacityInput_value := numberToString Dec.eightTenths }
  let s2 := { s1 with opacity := Scalar.num Dec.eightTenths }
  let product := Double.mul s2.lineWidthInput_max.toDouble Dec.eightTenths.toDouble
  let width := Math_ceil product
  let s3 := { s2 with lineWidthInput_value := numberToString width }
  let s4 := { s3 with color := js "#000000" }
  let s5 := { s4 with colorPicker_value := js "#000000" }
  let s6 := updatePenColor s5
  updateLineWidth s6

/-- The function `setEraserMode` (lines 187-197). -/
def setEraserMode (s : State) : State :=
  let s1 := { s with opacityInput_value := numberToString Dec.one }
  let s2 := { s1 with opacity := Scalar.num Dec.one }
  let product := Double.mul s2.lineWidthInput_max.toDouble Dec.threeQuarters.toDouble
  let width := Math_ceil product
  let s3 := { s2 with lineWidthInput_value := numberToString width }
  let s4 := updateLineWidth s3
  let s5 := { s4 with color := s4.canvasColorPicker_value }
  let s6 := { s5 with colorPicker_value := s5.canvasColorPicker_value }
  updatePenColor s6

/-- The `input` listener of the notes field (lines 53-55). -/
def saveNotes (s : State) : State :=
  { s with localStorage := { s.localStorage with savedNotes := some s.notesTextarea_value } }

/-- The function `downloadCanvas` (lines 208-213): it builds a link to the canvas image
and clicks it; no script variable, control, storage key or context operation is touched. -/
def downloadCanvas (s : State) : State := s

/-- The `load` listener (lines 31-50).  The result is `none` when the persisted text is
JSON of another shape than a stroke array, a case this development does not follow. -/
def loadHandler (s : State) : Option Outcome :=
  let savedNotes := s.localStorage.savedNotes
  let s1 := if truthy savedNotes then { s with notesTextarea_value := savedNotes.getD [] } else s
  let savedCanvasData := s1.localStorage.allLines
  let parsed : Parsed :=
    if truthy savedCanvasData then JSON_parse (savedCanvasData.getD [])
    else Parsed.lines s1.allLines
  match parsed with
  | .syntaxError => some ⟨s1, some JSError.syntaxError⟩
  | .other => none
  | .lines ls =>
    let s2 := { s1 with allLines := ls }
    let savedCanvasColor := s2.localStorage.canvasColor
    let s3 :=
      if truthy savedCanvasColor then
        { s2 with canvasColor := savedCanvasColor.getD [],
                  canvasColorPicker_value := savedCanvasColor.getD [] }
      else s2
    let s4 := fillCanvasBackground s3
    some (redrawCanvas s4)

/-- The parts of the page that the markup, which is not part of the sources, decides: the
initial values of the controls and the `max` of the width control, read as a number. -/
structure Page where
  colorPicker_value : JSString
  canvasColorPicker_value : JSString
  lineWidthInput_max : Dec
  opacityInput_value : JSString
  notesTextarea_value : JSString
deriving DecidableEq

/-- The state after the top-level statements of the script (lines 17-28). -/
def initialState (page : Page) (storage : Storage) : State :=
  let product := Double.mul page.lineWidthInput_max.toDouble Dec.tenth.toDouble
  let lineWidth := Math_ceil product
  { isDrawing := false
    color := js "#000000"
    canvasColor := js "#FFFFFF"
    lineWidth := Scalar.num lineWidth
    opacity := Scalar.num Dec.one
    allLines := []
    colorPicker_value := page.colorPicker_value
    canvasColorPicker_value := page.canvasColorPicker_value
    lineWidthInput_value := numberToString lineWidth
    lineWidthInput_max := page.lineWidthInput_max
    opacityInput_value := page.opacityInput_value
    notesTextarea_value := page.notesTextarea_value
    localStorage := storage
    ctx := [] }

/-- The events the listeners are registered for (lines 53, 64-78).  An `input` event
carries the value the user has just given to the control. -/
inductive Event where
  | mousedown (e : MouseEvent)
  | mousemove (e : MouseEvent)
  | mouseup
  | mouseout
  | colorPickerInput (v : JSString)
  | canvasColorPickerInput (v : JSString)
  | lineWidthInputInput (v : JSString)
  | opacityInputInput (v : JSString)
  | notesInput (v : JSString)
  | penClick
  | brushClick
  | eraserClick
  | resetClick
  | downloadClick
deriving DecidableEq

/-- The listener that runs on an event. -/
def step (s : State) : Event → Outcome
  | .mousedown e => ⟨startDrawing s e, none⟩
  | .mousemove e => drawLine s e
  | .mouseup => ⟨stopDrawing s, none⟩
  | .mouseout => ⟨stopDrawing s, none⟩
  | .colorPickerInput v => ⟨updatePenColor { s with colorPicker_value := v }, none⟩
  | .canvasColorPickerInput v =>
    ⟨updateCanvasColor { s with canvasColorPicker_value := v }, none⟩
  | .lineWidthInputInput v => ⟨updateLineWidth { s with lineWidthInput_value := v }, none⟩
  | .opacityInputInput v => ⟨updateOpacity { s with opacityInput_value := v }, none⟩
  | .notesInput v => ⟨saveNotes { s with notesTextarea_value := v }, none⟩
  | .penClick => ⟨setPenMode s, none⟩
  | .brushClick => ⟨setBrushMode s, none⟩
  | .eraserClick => ⟨setEraserMode s, none⟩
  | .resetClick => ⟨resetCanvas s, none⟩
  | .downloadClick => ⟨downloadCanvas s, none⟩

/-- The state after a sequence of events; an exception ends only the listener that
raised it. -/
def run (s : State) : List Event → State
  | [] => s
  | ev :: rest => run (step s ev).state rest

/-- The states the page can be in: after the `load` listener on some page and storage, and
after any further event. -/
inductive Reachable (page : Page) (storage : Storage) : State → Prop where
  | loaded (o : Outcome) (h : loadHandler (initialState page storage) = some o) :
      Reachable page storage o.state
  | step (s : State) (ev : Event) (h : Reachable page storage s) :
      Reachable page storage (step s ev).state

/-! ## The renderer as the specification words it -/

/-- The path of one stroke as the specification describes it: width, round caps and joins,
opacity, then one path from the first point through every further point in order, stroked
in the colour of the stroke. -/
def strokeOpsSpec (line : Stroke) : List Op :=
  match line.points with
  | [] => []
  | p0 :: more =>
    [Op.setLineWidth line.lineWidth, Op.setLineCap (js "round"), Op.setLineJoin (js "round"),
      Op.setGlobalAlpha line.opacity, Op.beginPath, Op.moveTo p0.1 p0.2] ++
    more.map (fun p => Op.lineTo p.1 p.2) ++
    [Op.setStrokeStyle line.color, Op.stroke]

/-- The rendering of a Document as the specification describes it: clear, fill with the
background, every stroke in insertion order, and the opacity back at `1.0`. -/
def renderSpec (background : JSString) (strokes : List Stroke) : List Op :=
  [Op.clearRect, Op.setFillStyle background, Op.fillRect] ++
    (strokes.map strokeOpsSpec).flatten ++ [Op.setGlobalAlpha (Scalar.num Dec.one)]

/-! ## Concrete pages and states used in the examples -/

/-- A page whose width control has `max = 10` and whose background picker starts at the
initial background colour. -/
def examplePage : Page :=
  { colorPicker_value := js "#000000"
    canvasColorPicker_value := js "#FFFFFF"
    lineWidthInput_max := Dec.ofInt 10
    opacityInput_value := js "1"
    notesTextarea_value := [] }

/-- A storage without any key. -/
def emptyStorage : Storage := { savedNotes := none, allLines := none, canvasColor := none }

/-- The state of `examplePage` after the `load` listener on an empty storage. -/
def exampleLoaded : State :=
  (redrawCanvas (fillCanvasBackground (initialState examplePage emptyStorage))).state

/-- A pointer event at integer coordinates. -/
def mouseAt (x y : Int) : MouseEvent := { offsetX := Dec.ofInt x, offsetY := Dec.ofInt y }

/-- The state of the scenario of the specification: no stroke, no gesture, draw mode
`"#FF0000"`, width `5`, opacity `1.0`. -/
def exampleRedPen : State :=
  { exampleLoaded with color := js "#FF0000", lineWidth := Scalar.num (Dec.ofInt 5) }

/-- A state with a gesture in progress: `exampleLoaded` after a pointer-down at `(0, 0)`. -/
def exampleActive : State := startDrawing exampleLoaded (mouseAt 0 0)

/-! ## Notions used in the statements and proofs -/

/-- What every listener preserves: the `max` of the width control, and the agreement of
the background picker with `canvasColor`. -/
def PickerInSync (page : Page) (s : State) : Prop :=
  s.lineWidthInput_max = page.lineWidthInput_max ∧ s.canvasColorPicker_value = s.canvasColor

/-- A text at which a number token ends: no digit, no fraction and no exponent follows. -/
def EndsNumber (rest : List Nat) : Prop :=
  spanDigits rest = ([], rest) ∧ lexFraction rest = some ([], rest) ∧
    lexExponent rest = some (0, rest)

/-- The token of a number or a string. -/
def Scalar.token : Scalar → Token
  | .num d => Token.num d
  | .str s => Token.str s

/-- The tokens of a point. -/
def pointTokens (p : Point) : List Token :=
  [Token.lbracket, Token.num p.1, Token.comma, Token.num p.2, Token.rbracket]

/-- The tokens after a point of the points array: the further points and the bracket. -/
def pointsTailTokens : List Point → List Token
  | [] => [Token.rbracket]
  | p :: ps => Token.comma :: (pointTokens p ++ pointsTailTokens ps)

/-- The tokens of the points array after its opening bracket. -/
def pointsTokens : List Point → List Token
  | [] => [Token.rbracket]
  | p :: ps => pointTokens p ++ pointsTailTokens ps

/-- The tokens of a stroke object. -/
def strokeTokens (l : Stroke) : List Token :=
  [Token.lbrace, Token.str (js "color"), Token.colon, Token.str l.color, Token.comma,
    Token.str (js "lineWidth"), Token.colon, l.lineWidth.token, Token.comma,
    Token.str (js "opacity"), Token.colon, l.opacity.token, Token.comma,
    Token.str (js "points"), Token.colon, Token.lbracket] ++
    (pointsTokens l.points ++ [Token.rbrace])

/-- The tokens after a stroke of the stroke array: the further strokes and the bracket. -/
def linesTailTokens : List Stroke → List Token
  | [] => [Token.rbracket]
  | l :: ls => Token.comma :: (strokeTokens l ++ linesTailTokens ls)

/-- The tokens of the stroke array. -/
def linesTokens : List Stroke → List Token
  | [] => [Token.lbracket, Token.rbracket]
  | l :: ls => Token.lbracket :: (strokeTokens l ++ linesTailTokens ls)

/-- The text `t` is made of the tokens `ts`, whatever follows: lexing it takes one step
for each token, and there are no more tokens than code units. -/
def LexesTo (t : List Nat) (ts : List Token) : Prop :=
  ts.length ≤ t.length ∧
    ∀ (fuel : Nat) (rest : List Nat),
      lex (fuel + ts.length) (t ++ rest) = (lex fuel rest).map (fun r => ts ++ r)

/-- The Document of a state: background colour and strokes. -/
structure Document where
  background : JSString
  strokes : List Stroke
deriving DecidableEq

/-- The Document held by the script variables `canvasColor` and `allLines`. -/
def State.document (s : State) : Document :=
  { background := s.canvasColor, strokes := s.allLines }

/-- The rational number a `Dec` stands for. -/
def Dec.toRat (d : Dec) : ℚ := (d.mant : ℚ) / (10 : ℚ) ^ d.scale

/-! ## The opacity in force on the context -/

/-- The value of `ctx.globalAlpha` after one operation, given its value before. -/
def applyAlpha (a : Scalar) : Op → Scalar
  | .setGlobalAlpha v => v
  | _ => a

/-- The value of `ctx.globalAlpha` after a sequence of operations, from the value `a`. -/
def globalAlpha (ops : List Op) (a : Scalar) : Scalar := ops.foldl applyAlpha a

/-- The values of `ctx.globalAlpha` in force at the moment of each operation selected by
`p`, in order, when the sequence starts with the value `a`. -/
def alphaAt (p : Op → Bool) : List Op → Scalar → List Scalar
  | [], _ => []
  | op :: rest, a =>
    if p op then a :: alphaAt p rest (applyAlpha a op) else alphaAt p rest (applyAlpha a op)

/-- The call `ctx.stroke()`. -/
def Op.isStroke : Op → Bool
  | .stroke => true
  | _ => false

/-- An assignment to `ctx.lineWidth`, the first statement of the `forEach` callback. -/
def Op.isSetLineWidth : Op → Bool
  | .setLineWidth _ => true
  | _ => false

/-- A state with two strokes of opacity `0.8`: brush mode, then two one-point gestures. -/
def exampleTwoStrokes : State :=
  run exampleLoaded [Event.brushClick, Event.mousedown (mouseAt 0 0), Event.mouseup,
    Event.mousedown (mouseAt 5 5), Event.mouseup]

/-- The text `saveDrawingData` persists for `exampleTwoStrokes`, cut short by one code
unit. -/
def exampleTruncatedText : JSString := (JSON_stringify exampleTwoStrokes.allLines).dropLast

/-! ## The draw mode and the controls on their own -/

/-- The rational number a double stands for. -/
def Double.toRat (x : Double) : ℚ :=
  (if x.neg then -1 else 1) * (x.mant : ℚ) * (2 : ℚ) ^ x.exp

/-- The draw mode and the values of the controls: the part of the state that the presets
read and write. -/
structure Controls where
  color : JSString
  canvasColor : JSString
  lineWidth : Scalar
  opacity : Scalar
  colorPicker_value : JSString
  canvasColorPicker_value : JSString
  lineWidthInput_value : JSString
  lineWidthInput_max : Dec
  opacityInput_value : JSString
  notesTextarea_value : JSString
deriving DecidableEq

/-- The draw mode and the values of the controls in a state. -/
def State.controls (s : State) : Controls :=
  { color := s.color
    canvasColor := s.canvasColor
    lineWidth := s.lineWidth
    opacity := s.opacity
    colorPicker_value := s.colorPicker_value
    canvasColorPicker_value := s.canvasColorPicker_value
    lineWidthInput_value := s.lineWidthInput_value
    lineWidthInput_max := s.lineWidthInput_max
    opacityInput_value := s.opacityInput_value
    notesTextarea_value := s.notesTextarea_value }

/-- The draw mode and the controls after the `load` listener (lines 31-50), whatever the
persisted text: the saved notes are shown; when `JSON.parse` throws, the listener ends
there; otherwise (no text, a stroke array, or JSON of any other shape, which the script
assigns to `allLines` all the same) the saved background is read into `canvasColor` and
the background picker. -/
def loadControls (s : State) : Controls :=
  let savedNotes := s.localStorage.savedNotes
  let s1 := if truthy savedNotes then { s with notesTextarea_value := savedNotes.getD [] } else s
  let savedCanvasData := s1.localStorage.allLines
  if truthy savedCanvasData ∧ JSON_parse (savedCanvasData.getD []) = Parsed.syntaxError then
    s1.controls
  else
    let savedCanvasColor := s1.localStorage.canvasColor
    let s3 :=
      if truthy savedCanvasColor then
        { s1 with canvasColor := savedCanvasColor.getD [],
                  canvasColorPicker_value := savedCanvasColor.getD [] }
      else s1
    s3.controls

/-- The states the page can be in as far as the draw mode and the controls go, for every
persisted text.  After a load of JSON of another shape than a stroke array the script keeps
that value in `allLines`, which a `State` does not hold; no listener reads `allLines`,
`isDrawing`, the storage or the context when it assigns a mode variable or a control
(`step_controls_congr`), so every state with the mode and the controls that the `load`
listener leaves is admitted as a start. -/
inductive ReachableMode (page : Page) (storage : Storage) : State → Prop where
  | loaded (s : State) (h : s.controls = loadControls (initialState page storage)) :
      ReachableMode page storage s
  | step (s : State) (ev : Event) (h : ReachableMode page storage s) :
      ReachableMode page storage (step s ev).state

/-- The number `7.5`. -/
def Dec.sevenAndHalf : Dec := ⟨75, 1, by decide⟩

/-- The state of `examplePage` after loading and a change of the background to
`"#0000FF"`. -/
def exampleBlue : State :=
  (step exampleLoaded (Event.canvasColorPickerInput (js "#0000FF"))).state

/-! ## Basic facts about the handlers -/

theorem run_append (s : State) (es fs : List Event) :
    run s (es ++ fs) = run (run s es) fs := by
  induction es generalizing s with
  | nil => rfl
  | cons ev rest ih => exact ih (step s ev).state

theorem redrawCanvas_state (s : State) :
    (redrawCanvas s).state = { s with ctx := (redrawCanvas s).state.ctx } := by
  unfold redrawCanvas
  simp only [fillCanvasBackground]
  split <;> rfl

theorem redrawCanvas_isDrawing (s : State) :
    (redrawCanvas s).state.isDrawing = s.isDrawing := by
  rw [redrawCanvas_state]

theorem redrawCanvas_allLines (s : State) :
    (redrawCanvas s).state.allLines = s.allLines := by
  rw [redrawCanvas_state]

theorem drawLine_extends (s : State) (e : MouseEvent) (L : List Stroke) (l : Stroke)
    (hd : s.isDrawing = true) (hl : s.allLines = L ++ [l]) :
    (drawLine s e).state.isDrawing = true ∧
    (drawLine s e).state.allLines =
      L ++ [{ l with points := l.points ++ [(e.offsetX, e.offsetY)] }] := by
  have hidx : s.allLines[s.allLines.length - 1]? = some l := by
    rw [hl]; simp
  have hdl : drawLine s e = redrawCanvas { s with allLines := (s.allLines.set
      (s.allLines.length - 1) { l with points := l.points ++ [(e.offsetX, e.offsetY)] }) } := by
    unfold drawLine
    simp only [hd, Bool.not_true, Bool.false_eq_true, if_false, hidx]
  rw [hdl, redrawCanvas_isDrawing, redrawCanvas_allLines]
  refine ⟨hd, ?_⟩
  show s.allLines.set (s.allLines.length - 1) _ = _
  rw [hl]
  simp

theorem run_mousemove_extends (ps : List MouseEvent) :
    ∀ (s : State) (L : List Stroke) (l : Stroke), s.isDrawing = true →
      s.allLines = L ++ [l] →
      (run s (ps.map Event.mousemove)).isDrawing = true ∧
      (run s (ps.map Event.mousemove)).allLines =
        L ++ [{ l with points := l.points ++ ps.map (fun e => (e.offsetX, e.offsetY)) }] := by
  induction ps with
  | nil =>
    intro s L l hd hl
    simpa [run] using And.intro hd hl
  | cons e rest ih =>
    intro s L l hd hl
    obtain ⟨h1, h2⟩ := drawLine_extends s e L l hd hl
    have := ih (drawLine s e).state L _ h1 h2
    simpa [run, step, List.append_assoc] using this

/-! ## The stroke store -/

/-- C1: from a state with no gesture active, `startDrawing` at `p0`, `drawLine` at each of
`p1, ..., pn` and `stopDrawing` leave the stroke list equal to the prior list followed by
exactly one new stroke with the current colour, width and opacity and the points
`[p0, p1, ..., pn]` in this order, and no gesture active. -/
theorem gesture_appends_one_stroke (s : State) (p0 : MouseEvent) (ps : List MouseEvent)
    (_hidle : s.isDrawing = false) :
    (run s (Event.mousedown p0 :: (ps.map Event.mousemove ++ [Event.mouseup]))).allLines =
      s.allLines ++ [Stroke.mk s.color s.lineWidth s.opacity
        ((p0.offsetX, p0.offsetY) :: ps.map (fun e => (e.offsetX, e.offsetY)))] ∧
    (run s (Event.mousedown p0 :: (ps.map Event.mousemove ++ [Event.mouseup]))).isDrawing =
      false := by
  have hstart : (startDrawing s p0).isDrawing = true ∧
      (startDrawing s p0).allLines = s.allLines ++ [Stroke.mk s.color s.lineWidth s.opacity
        [(p0.offsetX, p0.offsetY)]] := ⟨rfl, rfl⟩
  obtain ⟨_, h2⟩ := run_mousemove_extends ps (startDrawing s p0) s.allLines _ hstart.1 hstart.2
  have hrun : run s (Event.mousedown p0 :: (ps.map Event.mousemove ++ [Event.mouseup])) =
      stopDrawing (run (startDrawing s p0) (ps.map Event.mousemove)) := by
    show run (startDrawing s p0) (ps.map Event.mousemove ++ [Event.mouseup]) = _
    rw [run_append]
    rfl
  rw [hrun]
  refine ⟨?_, rfl⟩
  show (run (startDrawing s p0) (ps.map Event.mousemove)).allLines = _
  rw [h2]
  rfl

/-- C1, the scenario of the specification: from an empty list, begin at `(0, 0)` with
`"#FF0000"`, `5`, `1.0`, extend to `(10, 10)`, end: exactly one stroke with the points
`[(0, 0), (10, 10)]`. -/
theorem gesture_appends_one_stroke_witness :
    exampleRedPen.isDrawing = false ∧ exampleRedPen.allLines = [] ∧
    (run exampleRedPen
      [Event.mousedown (mouseAt 0 0), Event.mousemove (mouseAt 10 10), Event.mouseup]).allLines =
      [Stroke.mk (js "#FF0000") (Scalar.num (Dec.ofInt 5)) (Scalar.num Dec.one)
        [(Dec.ofInt 0, Dec.ofInt 0), (Dec.ofInt 10, Dec.ofInt 10)]] ∧
    (run exampleRedPen
      [Event.mousedown (mouseAt 0 0), Event.mousemove (mouseAt 10 10), Event.mouseup]).isDrawing =
      false :=
  ⟨by decide, by decide,
    gesture_appends_one_stroke exampleRedPen (mouseAt 0 0) [mouseAt 10 10] (by decide)⟩

set_option maxRecDepth 8000 in
/-- C4, as stated, fails: in a state with a gesture active, `startDrawing` changes the
stroke list. -/
theorem startDrawing_active_changes_list :
    exampleActive.isDrawing = true ∧
    (startDrawing exampleActive (mouseAt 3 4)).allLines ≠ exampleActive.allLines := by
  decide

/-- C4, amended: `startDrawing` has no guard on `isDrawing`; in every state, a gesture
active or not, it appends exactly one single-point stroke with the current draw mode to
the stroke list and leaves `isDrawing` true. -/
theorem startDrawing_always_appends (s : State) (e : MouseEvent) :
    (startDrawing s e).allLines =
      s.allLines ++ [Stroke.mk s.color s.lineWidth s.opacity [(e.offsetX, e.offsetY)]] ∧
    (startDrawing s e).allLines.length = s.allLines.length + 1 ∧
    (startDrawing s e).isDrawing = true := by
  refine ⟨rfl, ?_, rfl⟩
  show (s.allLines ++ [_]).length = _
  simp

/-- C5, the code at the failing input: `resetCanvas` empties the stroke list, keeps the
background and persists the empty list, and leaves `isDrawing` as it was; after a reset
during a gesture the gesture is still active and the next `drawLine` is no no-op, it raises
a `TypeError` on `allLines[allLines.length - 1].points`. -/
theorem resetCanvas_keeps_isDrawing :
    (∀ s : State, (resetCanvas s).allLines = [] ∧
      (resetCanvas s).canvasColor = s.canvasColor ∧
      (resetCanvas s).localStorage.allLines = some (js "[]") ∧
      (resetCanvas s).isDrawing = s.isDrawing) ∧
    exampleActive.isDrawing = true ∧
    (resetCanvas exampleActive).isDrawing = true ∧
    (drawLine (resetCanvas exampleActive) (mouseAt 1 1)).error = some JSError.typeError := by
  refine ⟨fun s => ⟨rfl, rfl, ?_, rfl⟩, by decide, by decide, by decide⟩
  show some (JSON_stringify []) = some (js "[]")
  decide

/-- C6: for every state and every colour `k` chosen in the background picker,
`updateCanvasColor` leaves the background equal to `k` and the stroke list empty, in memory
and in storage alike (the key `allLines` holds `[]`), and a `redrawCanvas` afterwards issues
the clearing, the fill with `k` and the reset of the opacity only: no stroke is drawn. -/
theorem updateCanvasColor_clears (s : State) (k : JSString) :
    (updateCanvasColor { s with canvasColorPicker_value := k }).canvasColor = k ∧
    (updateCanvasColor { s with canvasColorPicker_value := k }).allLines = [] ∧
    (updateCanvasColor { s with canvasColorPicker_value := k }).localStorage.canvasColor =
      some k ∧
    (updateCanvasColor { s with canvasColorPicker_value := k }).localStorage.allLines =
      some (js "[]") ∧
    (step s (Event.canvasColorPickerInput k)).state =
      updateCanvasColor { s with canvasColorPicker_value := k } ∧
    redrawCanvas (updateCanvasColor { s with canvasColorPicker_value := k }) =
      { state := { updateCanvasColor { s with canvasColorPicker_value := k } with
          ctx := (updateCanvasColor { s with canvasColorPicker_value := k }).ctx ++
            [Op.clearRect, Op.setFillStyle k, Op.fillRect,
              Op.setGlobalAlpha (Scalar.num Dec.one)] },
        error := none } := by
  refine ⟨rfl, rfl, rfl, ?_, rfl, ?_⟩
  · show some (JSON_stringify []) = some (js "[]")
    decide
  · simp [redrawCanvas, updateCanvasColor, resetCanvas, saveDrawingData, fillCanvasBackground,
      forEachLine]

/-! ## The mode presets -/

theorem drawLine_frame (s : State) (e : MouseEvent) :
    ∃ L c, (drawLine s e).state = { s with allLines := L, ctx := c } := by
  unfold drawLine
  split
  · exact ⟨s.allLines, s.ctx, rfl⟩
  · split
    · exact ⟨s.allLines, s.ctx, rfl⟩
    · rw [redrawCanvas_state]
      exact ⟨_, _, rfl⟩

theorem step_pickerInSync (page : Page) (s : State) (ev : Event)
    (h : PickerInSync page s) : PickerInSync page (step s ev).state := by
  obtain ⟨h1, h2⟩ := h
  cases ev with
  | mousemove e =>
    obtain ⟨L, c, hf⟩ := drawLine_frame s e
    show PickerInSync page (drawLine s e).state
    rw [hf]
    exact ⟨h1, h2⟩
  | canvasColorPickerInput v => exact ⟨h1, rfl⟩
  | _ => exact ⟨h1, h2⟩

theorem loadHandler_pickerInSync (page : Page) (s : State) (o : Outcome)
    (h : PickerInSync page s) (ho : loadHandler s = some o) : PickerInSync page o.state := by
  obtain ⟨h1, h2⟩ := h
  unfold loadHandler at ho
  simp only at ho
  split at ho
  · cases ho
    constructor
    · show (if _ then _ else _ : State).lineWidthInput_max = _
      split <;> exact h1
    · show (if _ then _ else _ : State).canvasColorPicker_value =
        (if _ then _ else _ : State).canvasColor
      split <;> exact h2
  · cases ho
  · cases ho
    unfold PickerInSync
    rw [redrawCanvas_state]
    simp only [fillCanvasBackground]
    split_ifs <;> exact ⟨h1, by first | rfl | exact h2⟩

theorem reachable_pickerInSync (page : Page) (storage : Storage) (s : State)
    (hpage : page.canvasColorPicker_value = js "#FFFFFF")
    (h : Reachable page storage s) : PickerInSync page s := by
  induction h with
  | loaded o ho => exact loadHandler_pickerInSync page _ o ⟨rfl, hpage⟩ ho
  | step s ev _ ih => exact step_pickerInSync page s ev ih

/-! ## The renderer -/

theorem lineToLoop_eq (points : List Point) :
    ∀ (fuel i : Nat) (ctx : List Op), lineToLoop points fuel i ctx =
      ctx ++ ((points.drop i).take fuel).map (fun p => Op.lineTo p.1 p.2) := by
  intro fuel
  induction fuel with
  | zero => intro i ctx; simp [lineToLoop]
  | succ n ih =>
    intro i ctx
    unfold lineToLoop
    by_cases hi : i < points.length
    · rw [if_pos hi, List.getElem?_eq_getElem hi]
      simp only
      rw [ih, List.drop_eq_getElem_cons hi]
      simp only [List.take_succ_cons, List.map_cons, List.append_assoc, List.singleton_append]
    · rw [if_neg hi, List.drop_of_length_le (Nat.le_of_not_lt hi)]
      simp

theorem drawOne_eq (ctx : List Op) (line : Stroke) (h : line.points ≠ []) :
    drawOne ctx line = (ctx ++ strokeOpsSpec line, none) := by
  obtain ⟨color, lineWidth, opacity, points⟩ := line
  cases points with
  | nil => exact absurd rfl h
  | cons p0 more =>
    simp [drawOne, strokeOpsSpec, lineToLoop_eq]

theorem forEachLine_eq (lines : List Stroke) :
    ∀ ctx : List Op, (∀ l ∈ lines, l.points ≠ []) →
      forEachLine ctx lines = (ctx ++ (lines.map strokeOpsSpec).flatten, none) := by
  induction lines with
  | nil => intro ctx _; simp [forEachLine]
  | cons l rest ih =>
    intro ctx h
    unfold forEachLine
    rw [drawOne_eq ctx l (h l (List.mem_cons_self _ _))]
    simp only
    rw [ih _ (fun l2 h2 => h l2 (List.mem_cons_of_mem _ h2))]
    simp

theorem redrawCanvas_eq (s : State) (h : ∀ l ∈ s.allLines, l.points ≠ []) :
    redrawCanvas s =
      { state := { s with ctx := s.ctx ++ renderSpec s.canvasColor s.allLines },
        error := none } := by
  unfold redrawCanvas
  simp only [fillCanvasBackground]
  rw [forEachLine_eq _ _ h]
  simp [renderSpec]

/-- C8: for every Document whose strokes each have at least one point, `redrawCanvas`
completes and issues exactly the operations the specification describes: the clearing,
the fill with the background colour, then for each stroke in insertion order one path from
its first point through every further point in order, stroked with its width, opacity and
colour and with round caps and joins (and the reset of the opacity at the end); the
operations depend on the background and the stroke list only. -/
theorem redrawCanvas_refines_renderSpec (s : State) (h : ∀ l ∈ s.allLines, l.points ≠ []) :
    redrawCanvas s =
      { state := { s with ctx := s.ctx ++ renderSpec s.canvasColor s.allLines },
        error := none } :=
  redrawCanvas_eq s h

/-- C8 on a Document with two strokes. -/
theorem redrawCanvas_refines_renderSpec_witness :
    (∀ l ∈ exampleTwoStrokes.allLines, l.points ≠ []) ∧
    redrawCanvas exampleTwoStrokes =
      { state := { exampleTwoStrokes with ctx := (exampleTwoStrokes.ctx ++
          renderSpec exampleTwoStrokes.canvasColor exampleTwoStrokes.allLines) },
        error := none } :=
  ⟨by decide, redrawCanvas_refines_renderSpec exampleTwoStrokes (by decide)⟩

theorem globalAlpha_append (xs ys : List Op) (a : Scalar) :
    globalAlpha (xs ++ ys) a = globalAlpha ys (globalAlpha xs a) := by
  simp [globalAlpha, List.foldl_append]

theorem alphaAt_append (p : Op → Bool) (xs ys : List Op) :
    ∀ a : Scalar, alphaAt p (xs ++ ys) a = alphaAt p xs a ++ alphaAt p ys (globalAlpha xs a) := by
  induction xs with
  | nil => intro a; rfl
  | cons x rest ih =>
    intro a
    simp only [List.cons_append, alphaAt]
    split <;> simp [ih, globalAlpha]

theorem alphaAt_lineTo (more : List Point) (a : Scalar) :
    alphaAt Op.isStroke (more.map (fun p => Op.lineTo p.1 p.2)) a = [] ∧
    globalAlpha (more.map (fun p => Op.lineTo p.1 p.2)) a = a := by
  induction more with
  | nil => exact ⟨rfl, rfl⟩
  | cons p rest ih => exact ih

theorem strokeOpsSpec_alpha (line : Stroke) (h : line.points ≠ []) (a : Scalar) :
    alphaAt Op.isStroke (strokeOpsSpec line) a = [line.opacity] ∧
    globalAlpha (strokeOpsSpec line) a = line.opacity := by
  obtain ⟨color, lineWidth, opacity, points⟩ := line
  cases points with
  | nil => exact absurd rfl h
  | cons p0 more =>
    have h1 := (alphaAt_lineTo more opacity).1
    have h2 := (alphaAt_lineTo more opacity).2
    simp only [strokeOpsSpec, List.append_assoc, alphaAt_append, globalAlpha_append]
    constructor
    · simp [alphaAt, Op.isStroke, applyAlpha, globalAlpha, h1]
      simpa [globalAlpha] using h2
    · simp [applyAlpha, globalAlpha]
      simpa [globalAlpha, applyAlpha] using h2

theorem strokes_alpha (lines : List Stroke) :
    ∀ a : Scalar, (∀ l ∈ lines, l.points ≠ []) →
      alphaAt Op.isStroke (lines.map strokeOpsSpec).flatten a =
        lines.map (fun l => l.opacity) := by
  induction lines with
  | nil => intro a _; rfl
  | cons l rest ih =>
    intro a h
    have hl := strokeOpsSpec_alpha l (h l (List.mem_cons_self _ _))
    simp only [List.map_cons, List.flatten_cons, alphaAt_append, (hl a).1, (hl a).2]
    rw [ih _ (fun l2 h2 => h l2 (List.mem_cons_of_mem _ h2))]
    rfl

theorem renderSpec_alpha (background : JSString) (lines : List Stroke)
    (h : ∀ l ∈ lines, l.points ≠ []) (a : Scalar) :
    alphaAt Op.isStroke (renderSpec background lines) a = lines.map (fun l => l.opacity) ∧
    globalAlpha (renderSpec background lines) a = Scalar.num Dec.one := by
  constructor
  · simp only [renderSpec, alphaAt_append]
    rw [strokes_alpha lines _ h]
    simp [alphaAt, Op.isStroke]
  · simp only [renderSpec, globalAlpha_append]
    rfl

/-- C10, as stated, fails: with two strokes of opacity `0.8`, `redrawCanvas` completes, and
when the second stroke is begun (at its assignment to `ctx.lineWidth`) the opacity in force
is still the `0.8` of the first stroke, not `1.0`; `1.0` is in force only at the return. -/
theorem redrawCanvas_no_reset_between_strokes :
    exampleTwoStrokes.allLines.map (fun l => l.opacity) =
      [Scalar.num Dec.eightTenths, Scalar.num Dec.eightTenths] ∧
    (redrawCanvas exampleTwoStrokes).error = none ∧
    globalAlpha exampleTwoStrokes.ctx (Scalar.num Dec.one) = Scalar.num Dec.one ∧
    alphaAt Op.isSetLineWidth
        ((redrawCanvas exampleTwoStrokes).state.ctx.drop exampleTwoStrokes.ctx.length)
        (globalAlpha exampleTwoStrokes.ctx (Scalar.num Dec.one)) =
      [Scalar.num Dec.one, Scalar.num Dec.eightTenths] ∧
    ((redrawCanvas exampleTwoStrokes).state.ctx.drop exampleTwoStrokes.ctx.length).count
      (Op.setGlobalAlpha (Scalar.num Dec.one)) = 1 := by
  decide

/-- C10, amended: for every Document whose strokes each have at least one point,
`redrawCanvas` completes, every stroke is stroked under its own opacity (the opacity is
assigned anew before each path, whatever the stroke before left), and the opacity is back
at `1.0` when `redrawCanvas` returns: the last operation issued, after the last stroke, is
the reset to `1.0`. -/
theorem redrawCanvas_opacity_per_stroke (s : State) (h : ∀ l ∈ s.allLines, l.points ≠ []) :
    ∃ issued : List Op,
      redrawCanvas s = { state := { s with ctx := s.ctx ++ issued }, error := none } ∧
      (∀ a : Scalar, alphaAt Op.isStroke issued a = s.allLines.map (fun l => l.opacity)) ∧
      (∀ a : Scalar, globalAlpha issued a = Scalar.num Dec.one) ∧
      issued.getLast? = some (Op.setGlobalAlpha (Scalar.num Dec.one)) := by
  refine ⟨renderSpec s.canvasColor s.allLines, redrawCanvas_eq s h,
    fun a => (renderSpec_alpha _ _ h a).1, fun a => (renderSpec_alpha _ _ h a).2, ?_⟩
  unfold renderSpec
  exact List.getLast?_concat _

/-- C10, amended, on a Document with two strokes of opacity `0.8`. -/
theorem redrawCanvas_opacity_per_stroke_witness :
    (∀ l ∈ exampleTwoStrokes.allLines, l.points ≠ []) ∧
    ∃ issued : List Op,
      redrawCanvas exampleTwoStrokes =
        { state := { exampleTwoStrokes with ctx := exampleTwoStrokes.ctx ++ issued },
          error := none } ∧
      (∀ a : Scalar, alphaAt Op.isStroke issued a =
        exampleTwoStrokes.allLines.map (fun l => l.opacity)) ∧
      (∀ a : Scalar, globalAlpha issued a = Scalar.num Dec.one) ∧
      issued.getLast? = some (Op.setGlobalAlpha (Scalar.num Dec.one)) :=
  ⟨by decide, redrawCanvas_opacity_per_stroke exampleTwoStrokes (by decide)⟩

/-! ## Arithmetic of the presets -/

theorem bitLengthAux_zero (f : Nat) : bitLengthAux f 0 = 0 := by
  cases f <;> rfl

theorem bitLengthAux_spec (f : Nat) :
    ∀ n : Nat, n ≤ f → n < 2 ^ bitLengthAux f n ∧
      (n ≠ 0 → 1 ≤ bitLengthAux f n ∧ 2 ^ (bitLengthAux f n - 1) ≤ n) := by
  induction f with
  | zero =>
    intro n hn
    have : n = 0 := by omega
    subst this
    simp [bitLengthAux]
  | succ f ih =>
    intro n hn
    unfold bitLengthAux
    by_cases h0 : n = 0
    · subst h0
      simp
    · rw [if_neg h0]
      obtain ⟨h1, h2⟩ := ih (n / 2) (by omega)
      refine ⟨by rw [pow_succ]; omega, fun _ => ⟨by omega, ?_⟩⟩
      simp only [Nat.add_sub_cancel]
      by_cases h20 : n / 2 = 0
      · rw [h20, bitLengthAux_zero]
        simp only [pow_zero]
        omega
      · obtain ⟨h3, h4⟩ := h2 h20
        have h5 : 2 ^ bitLengthAux f (n / 2) = 2 ^ (bitLengthAux f (n / 2) - 1) * 2 := by
          rw [← pow_succ]
          congr 1
          omega
        rw [h5]
        omega

theorem bitLength_spec (n : Nat) (h : n ≠ 0) :
    1 ≤ bitLength n ∧ 2 ^ (bitLength n - 1) ≤ n ∧ n < 2 ^ bitLength n := by
  obtain ⟨h1, h2⟩ := bitLengthAux_spec n n (le_refl n)
  exact ⟨(h2 h).1, (h2 h).2, h1⟩

theorem scaled_snd_pos (num den : Nat) (e : Int) (hden : 0 < den) :
    0 < (scaled num den e).2 := by
  unfold scaled
  split
  · exact Nat.mul_pos hden (by positivity)
  · exact hden

theorem scaled_ratio (num den : Nat) (e : Int) (hden : 0 < den) :
    ((scaled num den e).1 : ℚ) / ((scaled num den e).2 : ℚ) =
      (num : ℚ) / (den : ℚ) * (2 : ℚ) ^ (-e) := by
  have hd : (den : ℚ) ≠ 0 := by exact_mod_cast hden.ne'
  unfold scaled
  by_cases he : 0 ≤ e
  · rw [if_pos he]
    obtain ⟨n, rfl⟩ := Int.eq_ofNat_of_zero_le he
    simp only [Int.toNat_ofNat, Nat.cast_mul, Nat.cast_pow, Nat.cast_ofNat, zpow_neg,
      zpow_natCast]
    field_simp
  · rw [if_neg he]
    obtain ⟨k, hk⟩ := Int.eq_ofNat_of_zero_le (show (0 : Int) ≤ -e by omega)
    rw [hk]
    simp only [Int.toNat_ofNat, Nat.cast_mul, Nat.cast_pow, Nat.cast_ofNat, zpow_natCast]
    field_simp

theorem binaryExponent_ge (num den : Nat) : -1074 ≤ binaryExponent num den := by
  unfold binaryExponent
  exact le_max_right _ _

theorem binaryExponent_lower (num den : Nat) (hnum : num ≠ 0) (hden : 0 < den)
    (he : -1074 < binaryExponent num den) :
    (2 : ℚ) ^ (52 : Nat) ≤ (num : ℚ) / (den : ℚ) * (2 : ℚ) ^ (-binaryExponent num den) := by
  have hd : (0 : ℚ) < (den : ℚ) := by exact_mod_cast hden
  obtain ⟨hn1, hn2, _⟩ := bitLength_spec num hnum
  obtain ⟨hd1, _, hd3⟩ := bitLength_spec den hden.ne'
  have h2 : (0 : ℚ) < 2 := by norm_num
  unfold binaryExponent at he ⊢
  simp only at he ⊢
  by_cases htest : 2 ^ 53 * (scaled num den ((bitLength num : Int) - (bitLength den : Int) - 53)).2 ≤
      (scaled num den ((bitLength num : Int) - (bitLength den : Int) - 53)).1
  · rw [if_pos htest] at he ⊢
    rw [max_eq_left (le_of_lt (by
      rcases le_total ((bitLength num : Int) - (bitLength den : Int) - 53 + 1) (-1074) with h | h
      · rw [max_eq_right h] at he; exact absurd he (lt_irrefl _)
      · rcases eq_or_lt_of_le h with h' | h'
        · rw [← h', max_self] at he; exact absurd he (by rw [h']; exact lt_irrefl _)
        · exact h'))]
    have hpos := scaled_snd_pos num den ((bitLength num : Int) - (bitLength den : Int) - 53) hden
    have hr := scaled_ratio num den ((bitLength num : Int) - (bitLength den : Int) - 53) hden
    have hB : (0 : ℚ) < ((scaled num den
        ((bitLength num : Int) - (bitLength den : Int) - 53)).2 : ℚ) := by exact_mod_cast hpos
    have h53 : (2 : ℚ) ^ (53 : Nat) ≤ (num : ℚ) / (den : ℚ) *
        (2 : ℚ) ^ (-((bitLength num : Int) - (bitLength den : Int) - 53)) := by
      rw [← hr, le_div_iff₀ hB]
      exact_mod_cast htest
    have hsplit : (2 : ℚ) ^ (-((bitLength num : Int) - (bitLength den : Int) - 53 + 1)) =
        (2 : ℚ) ^ (-((bitLength num : Int) - (bitLength den : Int) - 53)) / 2 := by
      rw [neg_add, zpow_add₀ h2.ne']
      simp [div_eq_mul_inv]
    rw [hsplit, ← mul_div_assoc, le_div_iff₀ h2]
    calc (2 : ℚ) ^ (52 : Nat) * 2 = (2 : ℚ) ^ (53 : Nat) := by norm_num
      _ ≤ _ := h53
  · rw [if_neg htest] at he ⊢
    rw [max_eq_left (le_of_lt (by
      rcases le_total ((bitLength num : Int) - (bitLength den : Int) - 53) (-1074) with h | h
      · rw [max_eq_right h] at he; exact absurd he (lt_irrefl _)
      · rcases eq_or_lt_of_le h with h' | h'
        · rw [← h', max_self] at he; exact absurd he (by rw [h']; exact lt_irrefl _)
        · exact h'))]
    have hnum' : ((2 : ℚ) ^ (bitLength num - 1)) ≤ (num : ℚ) := by exact_mod_cast hn2
    have hden' : (den : ℚ) ≤ (2 : ℚ) ^ (bitLength den) := by exact_mod_cast le_of_lt hd3
    have hq : (2 : ℚ) ^ (bitLength num - 1) / (2 : ℚ) ^ (bitLength den) ≤
        (num : ℚ) / (den : ℚ) :=
      div_le_div₀ (by positivity) hnum' hd hden'
    have hz : (0 : ℚ) < (2 : ℚ) ^ (-((bitLength num : Int) - (bitLength den : Int) - 53)) :=
      zpow_pos h2 _
    have hexp : (2 : ℚ) ^ (52 : Nat) = (2 : ℚ) ^ (bitLength num - 1) / (2 : ℚ) ^ (bitLength den) *
        (2 : ℚ) ^ (-((bitLength num : Int) - (bitLength den : Int) - 53)) := by
      rw [← zpow_natCast, ← zpow_natCast, ← zpow_natCast, div_eq_mul_inv, ← zpow_neg,
        ← zpow_add₀ h2.ne', ← zpow_add₀ h2.ne']
      congr 1
      push_cast [Nat.cast_sub hn1]
      ring
    rw [hexp]
    exact mul_le_mul_of_nonneg_right hq (le_of_lt hz)

theorem roundHalfEven_exact (k b : Nat) (hb : 0 < b) : roundHalfEven (k * b) b = k := by
  unfold roundHalfEven
  rw [Nat.mul_mod_left]
  simp [hb, Nat.mul_div_cancel _ hb]

/-- Rounding is exact on a number that is a double already: `m * 2 ^ t` with `m` of at most
53 binary digits and `t` not below the least exponent. -/
theorem roundToDouble_exact (neg : Bool) (num den m : Nat) (t : Int) (hden : 0 < den)
    (hm : m < 2 ^ 53) (ht : -1074 ≤ t) (hq : (num : ℚ) / (den : ℚ) = (m : ℚ) * (2 : ℚ) ^ t) :
    (roundToDouble neg num den).toRat =
      (if neg then -1 else 1) * ((num : ℚ) / (den : ℚ)) := by
  have h2 : (0 : ℚ) < 2 := by norm_num
  unfold roundToDouble
  by_cases hnum : num = 0
  · rw [if_pos hnum]
    subst hnum
    simp [Double.toRat]
  rw [if_neg hnum]
  have hB := scaled_snd_pos num den (binaryExponent num den) hden
  have hBq : (0 : ℚ) < ((scaled num den (binaryExponent num den)).2 : ℚ) := by
    exact_mod_cast hB
  have hr := scaled_ratio num den (binaryExponent num den) hden
  -- the exponent of the number is not below the exponent chosen
  have hte : binaryExponent num den ≤ t := by
    by_contra hlt
    have hlt' : t < binaryExponent num den := not_le.mp hlt
    have hlow := binaryExponent_lower num den hnum hden (lt_of_le_of_lt ht hlt')
    rw [hq, mul_assoc, ← zpow_add₀ h2.ne'] at hlow
    have hhalf : (2 : ℚ) ^ (t + -binaryExponent num den) ≤ (2 : ℚ) ^ (-1 : Int) :=
      zpow_le_zpow_right₀ (by norm_num) (by omega)
    have hmq : (m : ℚ) < (2 : ℚ) ^ (53 : Nat) := by exact_mod_cast hm
    have hm0 : (0 : ℚ) ≤ (m : ℚ) := Nat.cast_nonneg m
    have : (m : ℚ) * (2 : ℚ) ^ (t + -binaryExponent num den) ≤ (m : ℚ) * (2 : ℚ) ^ (-1 : Int) :=
      mul_le_mul_of_nonneg_left hhalf hm0
    have h52 : (m : ℚ) * (2 : ℚ) ^ (-1 : Int) < (2 : ℚ) ^ (52 : Nat) := by
      rw [zpow_neg_one]
      have : (2 : ℚ) ^ (53 : Nat) = (2 : ℚ) ^ (52 : Nat) * 2 := by norm_num
      rw [this] at hmq
      linarith
    linarith
  obtain ⟨j, hj⟩ := Int.eq_ofNat_of_zero_le (show (0 : Int) ≤ t - binaryExponent num den by omega)
  -- the scaled fraction is the natural number `m * 2 ^ j`
  have hA : (scaled num den (binaryExponent num den)).1 =
      m * 2 ^ j * (scaled num den (binaryExponent num den)).2 := by
    have hrat : ((scaled num den (binaryExponent num den)).1 : ℚ) =
        (m : ℚ) * (2 : ℚ) ^ j * ((scaled num den (binaryExponent num den)).2 : ℚ) := by
      rw [← div_eq_iff hBq.ne', hr, hq, mul_assoc, ← zpow_add₀ h2.ne', ← zpow_natCast, ← hj]
      congr 2
    exact_mod_cast hrat
  rw [hA, roundHalfEven_exact _ _ hB]
  unfold Double.toRat
  simp only [Nat.cast_mul, Nat.cast_pow, Nat.cast_ofNat]
  rw [hq, mul_assoc ((if neg = true then -1 else 1 : ℚ)), mul_assoc (m : ℚ),
    ← zpow_natCast, ← zpow_add₀ h2.ne', ← hj]
  congr 3
  ring

theorem roundToDouble_neg (neg : Bool) (num den : Nat) :
    (roundToDouble neg num den).neg = neg := by
  unfold roundToDouble
  split <;> rfl

theorem Dec.toDouble_ofNat (n : Nat) (hn : n < 2 ^ 53) :
    (Dec.ofInt (n : Int)).toDouble.neg = false ∧
    (Dec.ofInt (n : Int)).toDouble.toRat = (n : ℚ) := by
  have hneg : decide ((Dec.ofInt (n : Int)).mant < 0) = false := by
    simp [Dec.ofInt]
  unfold Dec.toDouble
  rw [hneg]
  refine ⟨roundToDouble_neg _ _ _, ?_⟩
  have h := roundToDouble_exact false (Dec.ofInt (n : Int)).mant.natAbs
    (10 ^ (Dec.ofInt (n : Int)).scale) n 0 (by positivity) hn (by norm_num)
    (by simp [Dec.ofInt])
  rw [h]
  simp [Dec.ofInt]

theorem Dec.threeQuarters_toDouble :
    Dec.threeQuarters.toDouble.neg = false ∧ Dec.threeQuarters.toDouble.toRat = 3 / 4 := by
  have hneg : decide (Dec.threeQuarters.mant < 0) = false := by decide
  unfold Dec.toDouble
  rw [hneg]
  refine ⟨roundToDouble_neg _ _ _, ?_⟩
  have h := roundToDouble_exact false Dec.threeQuarters.mant.natAbs
    (10 ^ Dec.threeQuarters.scale) 3 (-2) (by positivity) (by norm_num) (by norm_num)
    (by
      have e1 : Dec.threeQuarters.mant.natAbs = 75 := by decide
      have e2 : Dec.threeQuarters.scale = 2 := rfl
      rw [e1, e2]
      norm_num [zpow_neg])
  rw [h]
  have e1 : Dec.threeQuarters.mant.natAbs = 75 := by decide
  have e2 : Dec.threeQuarters.scale = 2 := rfl
  rw [e1, e2]
  norm_num

theorem Double.mul_exact (a b : Double) (m : Nat) (t : Int) (ha : a.neg = false)
    (hb : b.neg = false) (hm : m < 2 ^ 53) (ht : -1074 ≤ t)
    (hq : a.toRat * b.toRat = (m : ℚ) * (2 : ℚ) ^ t) :
    (Double.mul a b).toRat = a.toRat * b.toRat := by
  have h2 : (2 : ℚ) ≠ 0 := by norm_num
  have hval : a.toRat * b.toRat =
      ((a.mant * b.mant : Nat) : ℚ) / ((1 : Nat) : ℚ) * (2 : ℚ) ^ (- -(a.exp + b.exp)) := by
    unfold Double.toRat
    rw [ha, hb, neg_neg, zpow_add₀ h2]
    push_cast
    ring
  have hr := scaled_ratio (a.mant * b.mant) 1 (-(a.exp + b.exp)) Nat.one_pos
  have hpos := scaled_snd_pos (a.mant * b.mant) 1 (-(a.exp + b.exp)) Nat.one_pos
  unfold Double.mul
  rw [ha, hb]
  have h := roundToDouble_exact (xor false false)
    (scaled (a.mant * b.mant) 1 (-(a.exp + b.exp))).1
    (scaled (a.mant * b.mant) 1 (-(a.exp + b.exp))).2 m t hpos hm ht
    (by rw [hr, ← hval, hq])
  rw [h, hr, ← hval]
  simp

theorem Math_ceil_spec (x : Double) : Math_ceil x = Dec.ofInt ⌈x.toRat⌉ := by
  have hv : x.toRat =
      (((if x.neg then -(x.mant : Int) else (x.mant : Int)) : Int) : ℚ) * (2 : ℚ) ^ x.exp := by
    unfold Double.toRat
    split <;> simp
  unfold Math_ceil
  simp only
  by_cases he : 0 ≤ x.exp
  · rw [if_pos he]
    congr 1
    obtain ⟨n, hn⟩ := Int.eq_ofNat_of_zero_le he
    rw [hv, hn, zpow_natCast, Int.toNat_ofNat]
    have : (((if x.neg then -(x.mant : Int) else (x.mant : Int)) : Int) : ℚ) * (2 : ℚ) ^ n =
        (((if x.neg then -(x.mant : Int) else (x.mant : Int)) * 2 ^ n : Int) : ℚ) := by
      push_cast
      rfl
    rw [this, Int.ceil_intCast]
  · rw [if_neg he]
    congr 1
    obtain ⟨k, hk⟩ := Int.eq_ofNat_of_zero_le (show (0 : Int) ≤ -x.exp by omega)
    have hexp : x.exp = -(k : Int) := by omega
    rw [hv, hk, Int.toNat_ofNat, hexp, zpow_neg, zpow_natCast]
    have h := Rat.floor_intCast_div_natCast
      (-(if x.neg then -(x.mant : Int) else (x.mant : Int))) (2 ^ k)
    have hneg : (((if x.neg then -(x.mant : Int) else (x.mant : Int)) : Int) : ℚ) *
        ((2 : ℚ) ^ k)⁻¹ =
        -(((-(if x.neg then -(x.mant : Int) else (x.mant : Int)) : Int) : ℚ) /
          ((2 ^ k : Nat) : ℚ)) := by
      push_cast
      ring
    rw [hneg, Int.ceil_neg, h]
    push_cast
    rfl

/-- For a width control whose `max` is a whole number up to `2 ^ 51` the product
`max * 0.75` is exact in doubles, and `Math.ceil` of it is `⌈0.75 × max⌉`. -/
theorem Math_ceil_three_quarters (n : Nat) (hn : n ≤ 2 ^ 51) :
    Math_ceil (Double.mul (Dec.ofInt (n : Int)).toDouble Dec.threeQuarters.toDouble) =
      Dec.ofInt ⌈(3 / 4 : ℚ) * (n : ℚ)⌉ := by
  obtain ⟨ha, hav⟩ := Dec.toDouble_ofNat n
    (lt_of_le_of_lt hn (by norm_num))
  obtain ⟨hb, hbv⟩ := Dec.threeQuarters_toDouble
  have hq : (Dec.ofInt (n : Int)).toDouble.toRat * Dec.threeQuarters.toDouble.toRat =
      ((3 * n : Nat) : ℚ) * (2 : ℚ) ^ (-2 : Int) := by
    rw [hav, hbv]
    push_cast
    norm_num [zpow_neg]
    ring
  have hm : 3 * n < 2 ^ 53 := by
    have : (2 : Nat) ^ 53 = 4 * 2 ^ 51 := by norm_num
    omega
  rw [Math_ceil_spec, Double.mul_exact _ _ (3 * n) (-2) ha hb hm (by norm_num) hq, hav, hbv,
    mul_comm]

theorem drawLine_controls (s : State) (e : MouseEvent) :
    (drawLine s e).state.controls = s.controls := by
  obtain ⟨L, c, hf⟩ := drawLine_frame s e
  rw [hf]
  rfl

/-- The mode variables and the controls evolve on their own: what a listener leaves in
them depends on them and on the event only. -/
theorem step_controls_congr (a b : State) (ev : Event) (h : a.controls = b.controls) :
    (step a ev).state.controls = (step b ev).state.controls := by
  have hc : a.color = b.color := congrArg Controls.color h
  have hcc : a.canvasColor = b.canvasColor := congrArg Controls.canvasColor h
  have hlw : a.lineWidth = b.lineWidth := congrArg Controls.lineWidth h
  have hop : a.opacity = b.opacity := congrArg Controls.opacity h
  have hcp : a.colorPicker_value = b.colorPicker_value := congrArg Controls.colorPicker_value h
  have hccp : a.canvasColorPicker_value = b.canvasColorPicker_value :=
    congrArg Controls.canvasColorPicker_value h
  have hlv : a.lineWidthInput_value = b.lineWidthInput_value :=
    congrArg Controls.lineWidthInput_value h
  have hlm : a.lineWidthInput_max = b.lineWidthInput_max :=
    congrArg Controls.lineWidthInput_max h
  have hov : a.opacityInput_value = b.opacityInput_value :=
    congrArg Controls.opacityInput_value h
  have hnt : a.notesTextarea_value = b.notesTextarea_value :=
    congrArg Controls.notesTextarea_value h
  cases ev with
  | mousemove e =>
    show (drawLine a e).state.controls = (drawLine b e).state.controls
    rw [drawLine_controls, drawLine_controls, h]
  | _ =>
    simp only [step, State.controls, startDrawing, stopDrawing, saveDrawingData,
      updatePenColor, updateCanvasColor, updateLineWidth, updateOpacity, saveNotes, setPenMode,
      setBrushMode, setEraserMode, resetCanvas, fillCanvasBackground, downloadCanvas,
      hc, hcc, hlw, hop, hcp, hccp, hlv, hlm, hov, hnt]

theorem loadHandler_controls (s : State) (o : Outcome) (h : loadHandler s = some o) :
    o.state.controls = loadControls s := by
  unfold loadHandler at h
  unfold loadControls
  simp only at h ⊢
  by_cases ht : truthy (if truthy s.localStorage.savedNotes = true then
      { s with notesTextarea_value := s.localStorage.savedNotes.getD [] }
      else s).localStorage.allLines = true
  · rw [if_pos ht] at h
    cases hp : JSON_parse ((if truthy s.localStorage.savedNotes = true then
        { s with notesTextarea_value := s.localStorage.savedNotes.getD [] }
        else s).localStorage.allLines.getD []) with
    | syntaxError =>
      rw [hp] at h
      simp only [Option.some.injEq] at h
      rw [if_pos ⟨ht, rfl⟩, ← h]
    | other =>
      rw [hp] at h
      cases h
    | lines ls =>
      rw [hp] at h
      simp only [Option.some.injEq] at h
      rw [if_neg (by simp), ← h, redrawCanvas_state]
      split <;> split <;> rfl
  · rw [if_neg ht] at h
    simp only [Option.some.injEq] at h
    rw [if_neg (fun hh => ht hh.1), ← h, redrawCanvas_state]
    split <;> split <;> rfl

theorem reachable_reachableMode (page : Page) (storage : Storage) (s : State)
    (h : Reachable page storage s) : ReachableMode page storage s := by
  induction h with
  | loaded o ho => exact ReachableMode.loaded _ (loadHandler_controls _ o ho)
  | step s ev _ ih => exact ReachableMode.step s ev ih

theorem loadControls_pickerInSync (page : Page) (storage : Storage) (s : State)
    (hpage : page.canvasColorPicker_value = js "#FFFFFF")
    (h : s.controls = loadControls (initialState page storage)) : PickerInSync page s := by
  have h1 : s.lineWidthInput_max = (loadControls (initialState page storage)).lineWidthInput_max :=
    congrArg Controls.lineWidthInput_max h
  have h2 : s.canvasColorPicker_value =
      (loadControls (initialState page storage)).canvasColorPicker_value :=
    congrArg Controls.canvasColorPicker_value h
  have h3 : s.canvasColor = (loadControls (initialState page storage)).canvasColor :=
    congrArg Controls.canvasColor h
  unfold PickerInSync
  rw [h1, h2, h3]
  unfold loadControls
  simp only
  split <;> split <;> first | exact ⟨rfl, hpage⟩ | (split <;> exact ⟨rfl, by first | rfl | exact hpage⟩)

theorem reachableMode_pickerInSync (page : Page) (storage : Storage) (s : State)
    (hpage : page.canvasColorPicker_value = js "#FFFFFF")
    (h : ReachableMode page storage s) : PickerInSync page s := by
  induction h with
  | loaded s hs => exact loadControls_pickerInSync page storage s hpage hs
  | step s ev _ ih => exact step_pickerInSync page s ev ih

set_option maxRecDepth 8000 in
/-- The product is rounded as the script's doubles are: for `max = 1.3333333333333334` the
product `max * 0.75` rounds to `1.0` and `Math.ceil` gives `1` (the exact product is above
`1`), for `max = 2 ^ 53 + 6` the tie `6755399441055748.5` goes to the even neighbour, and
`Math.ceil(25 * 0.1)` is `3`. -/
theorem Math_ceil_rounded_products :
    Math_ceil (Double.mul (Dec.normalize 13333333333333334 16).toDouble
      Dec.threeQuarters.toDouble) = Dec.ofInt 1 ∧
    Math_ceil (Double.mul (Dec.ofInt (2 ^ 53 + 6)).toDouble Dec.threeQuarters.toDouble) =
      Dec.ofInt 6755399441055748 ∧
    Math_ceil (Double.mul (Dec.ofInt 25).toDouble Dec.tenth.toDouble) = Dec.ofInt 3 := by
  decide

set_option maxRecDepth 8000 in
/-- C7, as stated, fails: on a page whose width control has `max = 10`, in the state after
loading, `setEraserMode` sets the width to the control value `"8"`, while `0.75 × max` is
`7.5`: the width is neither that number nor its numeral. -/
theorem setEraserMode_width_not_three_quarters :
    Reachable examplePage emptyStorage exampleLoaded ∧
    exampleLoaded.lineWidthInput_max = Dec.ofInt 10 ∧
    Dec.sevenAndHalf.toRat = (3 / 4 : ℚ) * (Dec.ofInt 10).toRat ∧
    numberToString Dec.sevenAndHalf = js "7.5" ∧
    (setEraserMode exampleLoaded).lineWidth = Scalar.str (js "8") ∧
    (setEraserMode exampleLoaded).lineWidth ≠ Scalar.num Dec.sevenAndHalf ∧
    (setEraserMode exampleLoaded).lineWidth ≠ Scalar.str (numberToString Dec.sevenAndHalf) :=
  ⟨Reachable.loaded
      (redrawCanvas (fillCanvasBackground (initialState examplePage emptyStorage)))
      (by decide),
    by decide, by norm_num [Dec.toRat, Dec.sevenAndHalf, Dec.ofInt], by decide, by decide,
    by decide, by decide⟩

/-- C7, amended: on a page whose background picker starts at the initial background colour
and whose width control has a whole-number `max` up to `2 ^ 51`, in every reachable state
(whatever the storage held at load) `setEraserMode` sets the colour to the current
background colour `canvasColor` (it reads the picker, which agrees with it), the opacity to
`1.0`, and the width to the value of the width control after it was given
`Math.ceil(max * 0.75)`: the decimal numeral of the integer `⌈0.75 × max⌉`. -/
theorem setEraserMode_mode (page : Page) (storage : Storage) (s : State) (max : Nat)
    (hpage : page.canvasColorPicker_value = js "#FFFFFF")
    (hmax : page.lineWidthInput_max = Dec.ofInt (max : Int)) (hrange : max ≤ 2 ^ 51)
    (h : ReachableMode page storage s) :
    (step s Event.eraserClick).state = setEraserMode s ∧
    (setEraserMode s).color = s.canvasColor ∧
    (setEraserMode s).opacity = Scalar.num Dec.one ∧
    (setEraserMode s).lineWidth =
      Scalar.str (numberToString (Dec.ofInt ⌈(3 / 4 : ℚ) * (max : ℚ)⌉)) := by
  obtain ⟨h1, h2⟩ := reachableMode_pickerInSync page storage s hpage h
  refine ⟨rfl, h2, rfl, ?_⟩
  show Scalar.str (numberToString
    (Math_ceil (Double.mul s.lineWidthInput_max.toDouble Dec.threeQuarters.toDouble))) = _
  rw [h1, hmax, Math_ceil_three_quarters max hrange]

set_option maxRecDepth 8000 in
/-- C7, amended, on the page with `max = 10`, after the background was changed to
`"#0000FF"`: the eraser colour is `"#0000FF"` and the width `"8"`. -/
theorem setEraserMode_mode_witness :
    examplePage.canvasColorPicker_value = js "#FFFFFF" ∧
    examplePage.lineWidthInput_max = Dec.ofInt ((10 : Nat) : Int) ∧
    10 ≤ 2 ^ 51 ∧
    ReachableMode examplePage emptyStorage exampleBlue ∧
    exampleBlue.canvasColor = js "#0000FF" ∧
    (setEraserMode exampleBlue).color = js "#0000FF" ∧
    (setEraserMode exampleBlue).lineWidth = Scalar.str (js "8") ∧
    (step exampleBlue Event.eraserClick).state = setEraserMode exampleBlue ∧
    (setEraserMode exampleBlue).color = exampleBlue.canvasColor ∧
    (setEraserMode exampleBlue).opacity = Scalar.num Dec.one ∧
    (setEraserMode exampleBlue).lineWidth =
      Scalar.str (numberToString (Dec.ofInt ⌈(3 / 4 : ℚ) * ((10 : Nat) : ℚ)⌉)) :=
  ⟨by decide, by decide, by decide,
    ReachableMode.step _ _ (ReachableMode.loaded exampleLoaded (by decide)),
    by decide, by decide, by decide,
    setEraserMode_mode examplePage emptyStorage exampleBlue 10 (by decide) (by decide)
      (by decide) (ReachableMode.step _ _ (ReachableMode.loaded exampleLoaded (by decide)))⟩

/-! ## Safety of the listeners -/

set_option maxRecDepth 8000 in
/-- C9, the code at the failing input: after loading an empty storage, a pointer-down
followed by a reset leads to a reachable state in which `isDrawing` is true and the stroke
list is empty; the next pointer-move raises a `TypeError` in `drawLine`. -/
theorem reset_during_gesture_breaks_drawLine :
    Reachable examplePage emptyStorage
      (run exampleLoaded [Event.mousedown (mouseAt 0 0), Event.resetClick]) ∧
    (run exampleLoaded [Event.mousedown (mouseAt 0 0), Event.resetClick]).isDrawing = true ∧
    (run exampleLoaded [Event.mousedown (mouseAt 0 0), Event.resetClick]).allLines = [] ∧
    (step (run exampleLoaded [Event.mousedown (mouseAt 0 0), Event.resetClick])
      (Event.mousemove (mouseAt 1 1))).error = some JSError.typeError :=
  ⟨Reachable.step _ Event.resetClick
      (Reachable.step _ (Event.mousedown (mouseAt 0 0))
        (Reachable.loaded
          (redrawCanvas (fillCanvasBackground (initialState examplePage emptyStorage)))
          (by decide))),
    by decide, by decide, by decide⟩

/-! ## Numbers survive printing and lexing -/

theorem isDigit_digit (x : Nat) (h : x < 10) : isDigit (48 + x) = true := by
  simp only [isDigit, Bool.and_eq_true, decide_eq_true_eq]
  omega

theorem fixedDigits_length (k n : Nat) : (fixedDigits k n).length = k := by
  induction k with
  | zero => rfl
  | succ k ih => simp [fixedDigits, ih]

theorem spanDigits_fixedDigits (k n : Nat) (rest : List Nat)
    (hrest : spanDigits rest = ([], rest)) :
    spanDigits (fixedDigits k n ++ rest) = (fixedDigits k n, rest) := by
  induction k with
  | zero => simpa [fixedDigits] using hrest
  | succ k ih =>
    have hd : isDigit (48 + n / 10 ^ k % 10) = true :=
      isDigit_digit _ (Nat.mod_lt _ (by norm_num))
    rw [fixedDigits, List.cons_append, spanDigits, if_pos hd, ih]

theorem foldl_fixedDigits (k n : Nat) :
    ∀ a : Nat, (fixedDigits k n).foldl (fun a c => 10 * a + (c - 48)) a =
      a * 10 ^ k + n % 10 ^ k := by
  induction k with
  | zero => intro a; simp [fixedDigits, Nat.mod_one]
  | succ k ih =>
    intro a
    simp only [fixedDigits, List.foldl_cons, ih, Nat.add_sub_cancel_left]
    rw [Nat.mod_pow_succ, pow_succ]
    ring

theorem digitsValue_append_fixedDigits (xs : List Nat) (k n : Nat) :
    digitsValue (xs ++ fixedDigits k n) = digitsValue xs * 10 ^ k + n % 10 ^ k := by
  simp only [digitsValue, List.foldl_append, foldl_fixedDigits]

theorem numDigitsAux_spec (f : Nat) :
    ∀ n : Nat, n ≤ f → 1 ≤ numDigitsAux f n ∧ n < 10 ^ numDigitsAux f n ∧
      (n ≠ 0 → 10 ^ (numDigitsAux f n - 1) ≤ n) := by
  induction f with
  | zero =>
    intro n hn
    have : n = 0 := by omega
    subst this
    simp [numDigitsAux]
  | succ f ih =>
    intro n hn
    unfold numDigitsAux
    by_cases h10 : n < 10
    · rw [if_pos h10]
      refine ⟨le_refl _, by simpa using h10, fun h0 => ?_⟩
      simp only [Nat.sub_self, pow_zero]
      omega
    · rw [if_neg h10]
      obtain ⟨h1, h2, h3⟩ := ih (n / 10) (by omega)
      refine ⟨by omega, ?_, fun _ => ?_⟩
      · rw [pow_succ]
        omega
      · have h4 := h3 (by omega)
        have h5 : 10 ^ (numDigitsAux f (n / 10)) =
            10 ^ (numDigitsAux f (n / 10) - 1) * 10 := by
          rw [← pow_succ]
          congr 1
          omega
        simp only [Nat.add_sub_cancel]
        rw [h5]
        omega

theorem numDigits_spec (n : Nat) :
    1 ≤ numDigits n ∧ n < 10 ^ numDigits n ∧ (n ≠ 0 → 10 ^ (numDigits n - 1) ≤ n) :=
  numDigitsAux_spec n n (le_refl n)

theorem digitsValue_natToString (n : Nat) : digitsValue (natToString n) = n := by
  have h := digitsValue_append_fixedDigits [] (numDigits n) n
  simp only [List.nil_append] at h
  rw [natToString, h, Nat.mod_eq_of_lt (numDigits_spec n).2.1]
  simp [digitsValue]

theorem natToString_ne_nil (n : Nat) : natToString n ≠ [] := by
  intro h
  have := congrArg List.length h
  rw [natToString, fixedDigits_length] at this
  have := (numDigits_spec n).1
  simp at *
  omega

theorem natToString_head (n : Nat) :
    ∃ x rest, natToString n = (48 + x) :: rest ∧ x < 10 ∧ (rest ≠ [] → x ≠ 0) := by
  obtain ⟨h1, h2, h3⟩ := numDigits_spec n
  unfold natToString
  obtain ⟨k, hk⟩ : ∃ k, numDigits n = k + 1 := ⟨numDigits n - 1, by omega⟩
  rw [hk] at h2 h3 ⊢
  refine ⟨n / 10 ^ k % 10, fixedDigits k n, rfl, Nat.mod_lt _ (by norm_num), fun hne => ?_⟩
  have hk0 : k ≠ 0 := by
    intro h0
    subst h0
    exact hne rfl
  have hn0 : n ≠ 0 := by
    intro h0
    subst h0
    have : numDigits 0 = 1 := rfl
    omega
  have h4 : 10 ^ k ≤ n := by simpa using h3 hn0
  have hpos : 0 < 10 ^ k := by positivity
  have h5 : 1 ≤ n / 10 ^ k := (Nat.one_le_div_iff hpos).2 h4
  have h6 : n / 10 ^ k < 10 := by
    rw [Nat.div_lt_iff_lt_mul hpos]
    rw [pow_succ] at h2
    omega
  rw [Nat.mod_eq_of_lt h6]
  omega

theorem endsNumber_cons (c : Nat) (r : List Nat) (h1 : isDigit c = false) (h2 : c ≠ 46)
    (h3 : c ≠ 101) (h4 : c ≠ 69) : EndsNumber (c :: r) := by
  refine ⟨?_, ?_, ?_⟩
  · rw [spanDigits, h1]; rfl
  · rw [lexFraction, if_neg h2]
  · unfold lexExponent
    simp [h3, h4]

theorem spanDigits_natToString (n : Nat) (rest : List Nat)
    (hrest : spanDigits rest = ([], rest)) :
    spanDigits (natToString n ++ rest) = (natToString n, rest) :=
  spanDigits_fixedDigits _ _ _ hrest

theorem natToString_no_leading_zero (n : Nat) :
    ((natToString n).head? = some 48 && decide (1 < (natToString n).length)) = false := by
  obtain ⟨x, more, hhead, _, hx0⟩ := natToString_head n
  rw [hhead]
  cases more with
  | nil => simp
  | cons m ms =>
    have := hx0 (List.cons_ne_nil _ _)
    simp only [List.head?_cons, Option.some.injEq, Bool.and_eq_false_imp, decide_eq_true_eq]
    intro h48
    omega

theorem lexUnsigned_of_parts (input ip tail fd s3 s4 : List Nat) (e : Int)
    (hspan : spanDigits input = (ip, tail)) (hne : ip ≠ [])
    (hlead : (ip.head? = some 48 && decide (1 < ip.length)) = false)
    (hf : lexFraction tail = some (fd, s3)) (he : lexExponent s3 = some (e, s4)) :
    lexUnsigned input = some ((digitsValue (ip ++ fd) : Int), e - (fd.length : Int), s4) := by
  unfold lexUnsigned
  simp only [hspan, hne, if_false, hlead, Bool.false_eq_true, hf, he]

theorem lexUnsigned_print (a s : Nat) (rest : List Nat) (h : EndsNumber rest) :
    lexUnsigned (natToString (a / 10 ^ s) ++
      ((if s = 0 then [] else 46 :: fixedDigits s (a % 10 ^ s)) ++ rest)) =
      some ((a : Int), -(s : Int), rest) := by
  obtain ⟨h1, h2, h3⟩ := h
  by_cases hs : s = 0
  · subst hs
    rw [lexUnsigned_of_parts _ _ _ _ _ _ _ (spanDigits_natToString _ _ (by simpa using h1))
      (natToString_ne_nil _) (natToString_no_leading_zero _) (by simpa using h2) h3]
    simp [digitsValue_natToString]
  · have hfd : fixedDigits s (a % 10 ^ s) ≠ [] := by
      intro hnil
      have := congrArg List.length hnil
      rw [fixedDigits_length] at this
      exact hs (by simpa using this)
    have hfrac : lexFraction (46 :: fixedDigits s (a % 10 ^ s) ++ rest) =
        some (fixedDigits s (a % 10 ^ s), rest) := by
      rw [List.cons_append, lexFraction, if_pos rfl, spanDigits_fixedDigits _ _ _ h1]
      simp [hfd]
    rw [if_neg hs]
    rw [lexUnsigned_of_parts _ _ _ _ _ _ _
      (spanDigits_natToString _ _ (by rw [List.cons_append, spanDigits]; rfl))
      (natToString_ne_nil _) (natToString_no_leading_zero _) hfrac h3]
    simp only [digitsValue_append_fixedDigits, digitsValue_natToString, fixedDigits_length,
      Option.some.injEq, Prod.mk.injEq, and_true]
    constructor
    · rw [Nat.mod_mod, Nat.div_add_mod']
    · omega

theorem Dec.normalize_self (d : Dec) : Dec.normalize d.mant d.scale = d := by
  obtain ⟨m, s, hc⟩ := d
  cases s with
  | zero => rfl
  | succ k =>
    have hm : m % 10 ≠ 0 := by
      rcases hc with h | h
      · exact absurd h (Nat.succ_ne_zero k)
      · exact h
    show Dec.normalize m (k + 1) = _
    rw [Dec.normalize, dif_neg hm]

theorem Dec.scale10_self (d : Dec) : Dec.scale10 d.mant (-(d.scale : Int)) = d := by
  unfold Dec.scale10
  by_cases hs : d.scale = 0
  · obtain ⟨m, s, hc⟩ := d
    simp only at hs
    subst hs
    simp [Dec.ofInt]
  · have hneg : ¬ (0 : Int) ≤ -(d.scale : Int) := by omega
    rw [if_neg hneg]
    simp only [neg_neg, Int.toNat_ofNat]
    exact Dec.normalize_self d

theorem lexNumber_minus (r : List Nat) :
    lexNumber (45 :: r) =
      match lexUnsigned r with
      | some (m, e, s) => some (Dec.scale10 (-m) e, s)
      | none => none := rfl

theorem lexNumber_unsigned (input : List Nat) (h : input.head? ≠ some 45) :
    lexNumber input =
      match lexUnsigned input with
      | some (m, e, s) => some (Dec.scale10 m e, s)
      | none => none := by
  rw [lexNumber, if_neg h]

theorem lexNumber_print (d : Dec) (rest : List Nat) (h : EndsNumber rest) :
    lexNumber (numberToString d ++ rest) = some (d, rest) := by
  have hu := lexUnsigned_print d.mant.natAbs d.scale rest h
  unfold numberToString
  by_cases hneg : d.mant < 0
  · rw [if_pos hneg]
    simp only [List.append_assoc, List.singleton_append, List.cons_append, List.nil_append]
    rw [lexNumber_minus, hu]
    simp only
    have hm : -(d.mant.natAbs : Int) = d.mant := by
      rw [Int.ofNat_natAbs_of_nonpos (le_of_lt hneg)]
      simp
    rw [hm, Dec.scale10_self]
  · rw [if_neg hneg]
    simp only [List.append_assoc, List.nil_append]
    obtain ⟨x, more, hhead, hx, _⟩ := natToString_head (d.mant.natAbs / 10 ^ d.scale)
    have hh : (natToString (d.mant.natAbs / 10 ^ d.scale) ++
        ((if d.scale = 0 then [] else 46 :: fixedDigits d.scale (d.mant.natAbs % 10 ^ d.scale)) ++
          rest)).head? ≠ some 45 := by
      rw [hhead]
      simp only [List.cons_append, List.head?_cons, ne_eq, Option.some.injEq]
      omega
    rw [lexNumber_unsigned _ hh, hu]
    simp only
    have hm : (d.mant.natAbs : Int) = d.mant := Int.natAbs_of_nonneg (not_lt.mp hneg)
    rw [hm, Dec.scale10_self]

theorem numberToString_head (d : Dec) :
    ∃ c more, numberToString d = c :: more ∧ (c = 45 ∨ isDigit c = true) := by
  unfold numberToString
  obtain ⟨x, more, hhead, hx, _⟩ := natToString_head (d.mant.natAbs / 10 ^ d.scale)
  by_cases hneg : d.mant < 0
  · rw [if_pos hneg]
    exact ⟨45, _, rfl, Or.inl rfl⟩
  · rw [if_neg hneg, hhead]
    exact ⟨48 + x, _, rfl, Or.inr (isDigit_digit x hx)⟩

/-! ## Strings survive quoting and lexing -/

theorem hexValue_hexDigit (x : Nat) (h : x < 16) : hexValue (hexDigit x) = some x := by
  interval_cases x <;> rfl

theorem lexStringBody_raw (c : Nat) (tail : List Nat) (h1 : c ≠ 34) (h2 : c ≠ 92)
    (h3 : ¬ c < 32) :
    lexStringBody (c :: tail) = (lexStringBody tail).map (fun q => (c :: q.1, q.2)) := by
  conv_lhs => unfold lexStringBody
  rw [if_neg h1, if_neg h2, if_neg h3]

theorem lexStringBody_short (e u : Nat) (tail : List Nat) (h1 : e ≠ 117)
    (h2 : unescape e = some u) :
    lexStringBody (92 :: e :: tail) = (lexStringBody tail).map (fun q => (u :: q.1, q.2)) := by
  conv_lhs => unfold lexStringBody
  simp only [show (92 : Nat) ≠ 34 by decide, if_false, if_true, if_neg h1, h2]

theorem lexStringBody_unicodeEscape (c : Nat) (tail : List Nat) (h : c < 65536) :
    lexStringBody (unicodeEscape c ++ tail) =
      (lexStringBody tail).map (fun q => (c :: q.1, q.2)) := by
  have e1 := hexValue_hexDigit (c / 4096 % 16) (Nat.mod_lt _ (by norm_num))
  have e2 := hexValue_hexDigit (c / 256 % 16) (Nat.mod_lt _ (by norm_num))
  have e3 := hexValue_hexDigit (c / 16 % 16) (Nat.mod_lt _ (by norm_num))
  have e4 := hexValue_hexDigit (c % 16) (Nat.mod_lt _ (by norm_num))
  have hval : c / 4096 % 16 * 4096 + c / 256 % 16 * 256 + c / 16 % 16 * 16 + c % 16 = c := by
    omega
  simp only [unicodeEscape, List.cons_append, List.nil_append]
  conv_lhs => unfold lexStringBody
  simp only [show (92 : Nat) ≠ 34 by decide, if_false, if_true, e1, e2, e3, e4, hval]

theorem lexStringBody_quoteUnit (c : Nat) (tail : List Nat) :
    lexStringBody (quoteUnit c ++ tail) =
      (lexStringBody tail).map (fun q => (c :: q.1, q.2)) := by
  unfold quoteUnit
  split_ifs with h8 h9 h10 h12 h13 h34 h92 hesc
  · subst h8; exact lexStringBody_short 98 8 tail (by decide) rfl
  · subst h9; exact lexStringBody_short 116 9 tail (by decide) rfl
  · subst h10; exact lexStringBody_short 110 10 tail (by decide) rfl
  · subst h12; exact lexStringBody_short 102 12 tail (by decide) rfl
  · subst h13; exact lexStringBody_short 114 13 tail (by decide) rfl
  · subst h34; exact lexStringBody_short 34 34 tail (by decide) rfl
  · subst h92; exact lexStringBody_short 92 92 tail (by decide) rfl
  · apply lexStringBody_unicodeEscape
    simp only [isHighSurrogate, isLowSurrogate, Bool.or_eq_true, Bool.and_eq_true,
      decide_eq_true_eq] at hesc
    omega
  · simp only [Bool.or_eq_true, decide_eq_true_eq, not_or] at hesc
    exact lexStringBody_raw c tail h34 h92 hesc.1.1

theorem lexStringBody_close (rest : List Nat) :
    lexStringBody (34 :: rest) = some ([], rest) := by
  unfold lexStringBody
  rfl

theorem lexStringBody_quoteUnits (s : JSString) (rest : List Nat) :
    lexStringBody (quoteUnits s ++ 34 :: rest) = some (s, rest) := by
  induction s using quoteUnits.induct with
  | case1 => exact lexStringBody_close rest
  | case2 c =>
    rw [quoteUnits, lexStringBody_quoteUnit, lexStringBody_close]
    rfl
  | case3 c d more hpair ih =>
    rw [quoteUnits, if_pos hpair]
    simp only [isHighSurrogate, isLowSurrogate, Bool.and_eq_true, decide_eq_true_eq] at hpair
    simp only [List.cons_append]
    rw [lexStringBody_raw c _ (by omega) (by omega) (by omega),
      lexStringBody_raw d _ (by omega) (by omega) (by omega), ih]
    rfl
  | case4 c d more hpair ih =>
    rw [quoteUnits, if_neg hpair, List.append_assoc, lexStringBody_quoteUnit, ih]
    rfl

/-! ## The text written by `JSON.stringify` lexes to the expected tokens -/

theorem LexesTo.append {t1 t2 : List Nat} {ts1 ts2 : List Token}
    (h1 : LexesTo t1 ts1) (h2 : LexesTo t2 ts2) : LexesTo (t1 ++ t2) (ts1 ++ ts2) := by
  refine ⟨by simp only [List.length_append]; exact Nat.add_le_add h1.1 h2.1, ?_⟩
  intro fuel rest
  have e : fuel + (ts1 ++ ts2).length = (fuel + ts2.length) + ts1.length := by
    simp only [List.length_append]; omega
  rw [e, List.append_assoc, h1.2, h2.2, Option.map_map]
  congr 1
  funext r
  simp

theorem lex_succ_cons (fuel c : Nat) (rest : List Nat) :
    lex (fuel + 1) (c :: rest) =
      if isWhitespace c then lex fuel rest
      else if c = 91 then (lex fuel rest).map (fun ts => Token.lbracket :: ts)
      else if c = 93 then (lex fuel rest).map (fun ts => Token.rbracket :: ts)
      else if c = 123 then (lex fuel rest).map (fun ts => Token.lbrace :: ts)
      else if c = 125 then (lex fuel rest).map (fun ts => Token.rbrace :: ts)
      else if c = 44 then (lex fuel rest).map (fun ts => Token.comma :: ts)
      else if c = 58 then (lex fuel rest).map (fun ts => Token.colon :: ts)
      else if c = 34 then
        match lexStringBody rest with
        | some (s, r) => (lex fuel r).map (fun ts => Token.str s :: ts)
        | none => none
      else if c = 45 || isDigit c then
        match lexNumber (c :: rest) with
        | some (d, r) => (lex fuel r).map (fun ts => Token.num d :: ts)
        | none => none
      else if c = 116 then
        match stripWord (js "rue") rest with
        | some r => (lex fuel r).map (fun ts => Token.litTrue :: ts)
        | none => none
      else if c = 102 then
        match stripWord (js "alse") rest with
        | some r => (lex fuel r).map (fun ts => Token.litFalse :: ts)
        | none => none
      else if c = 110 then
        match stripWord (js "ull") rest with
        | some r => (lex fuel r).map (fun ts => Token.litNull :: ts)
        | none => none
      else none := rfl

theorem lexesTo_punct (c : Nat) (tok : Token)
    (h : (c = 91 ∧ tok = Token.lbracket) ∨ (c = 93 ∧ tok = Token.rbracket) ∨
      (c = 123 ∧ tok = Token.lbrace) ∨ (c = 125 ∧ tok = Token.rbrace) ∨
      (c = 44 ∧ tok = Token.comma) ∨ (c = 58 ∧ tok = Token.colon)) :
    LexesTo [c] [tok] := by
  refine ⟨le_refl _, ?_⟩
  intro fuel rest
  show lex (fuel + 1) (c :: rest) = (lex fuel rest).map (fun r => tok :: r)
  rw [lex_succ_cons]
  rcases h with ⟨rfl, rfl⟩ | ⟨rfl, rfl⟩ | ⟨rfl, rfl⟩ | ⟨rfl, rfl⟩ | ⟨rfl, rfl⟩ | ⟨rfl, rfl⟩ <;>
    rfl

theorem lexesTo_string (s : JSString) : LexesTo (quoteJSONString s) [Token.str s] := by
  refine ⟨?_, ?_⟩
  · simp only [quoteJSONString, List.length_append, List.length_singleton]
    omega
  · intro fuel rest
    show lex (fuel + 1) (([34] ++ quoteUnits s ++ [34]) ++ rest) =
      (lex fuel rest).map (fun r => Token.str s :: r)
    simp only [List.append_assoc, List.singleton_append, List.cons_append, List.nil_append]
    rw [lex_succ_cons, lexStringBody_quoteUnits]
    rfl

theorem lex_number (d : Dec) (fuel : Nat) (rest : List Nat) (h : EndsNumber rest) :
    lex (fuel + 1) (numberToString d ++ rest) =
      (lex fuel rest).map (fun ts => Token.num d :: ts) := by
  have hn := lexNumber_print d rest h
  obtain ⟨c, more, hc, hcases⟩ := numberToString_head d
  rw [hc] at hn ⊢
  rw [List.cons_append] at hn ⊢
  rw [lex_succ_cons]
  have hstart : (c = 45 || isDigit c) = true := by
    rcases hcases with h45 | hd
    · simp [h45]
    · simp [hd]
  have hrange : c = 45 ∨ (48 ≤ c ∧ c ≤ 57) := by
    rcases hcases with h45 | hd
    · exact Or.inl h45
    · simp only [isDigit, Bool.and_eq_true, decide_eq_true_eq] at hd
      exact Or.inr hd
  have hws : isWhitespace c = false := by
    simp only [isWhitespace, Bool.or_eq_false_iff, decide_eq_false_iff_not]
    omega
  rw [hws]
  simp only [Bool.false_eq_true, if_false]
  rw [if_neg (by omega), if_neg (by omega), if_neg (by omega), if_neg (by omega),
    if_neg (by omega), if_neg (by omega), if_neg (by omega), if_pos hstart, hn]

theorem lexesTo_number_delim (d : Dec) (c : Nat) (tok : Token)
    (h : (c = 93 ∧ tok = Token.rbracket) ∨ (c = 44 ∧ tok = Token.comma)) :
    LexesTo (numberToString d ++ [c]) [Token.num d, tok] := by
  have hp : LexesTo [c] [tok] := by
    apply lexesTo_punct
    rcases h with h | h
    · exact Or.inr (Or.inl h)
    · exact Or.inr (Or.inr (Or.inr (Or.inr (Or.inl h))))
  obtain ⟨x, more, hhead, _⟩ := numberToString_head d
  refine ⟨?_, ?_⟩
  · rw [hhead]
    simp
  · intro fuel rest
    have hend : EndsNumber (c :: rest) := by
      apply endsNumber_cons <;> rcases h with ⟨rfl, _⟩ | ⟨rfl, _⟩ <;> decide
    have h2 := hp.2 fuel rest
    simp only [List.length_singleton, List.singleton_append] at h2
    show lex (fuel + 1 + 1) (numberToString d ++ [c] ++ rest) = _
    rw [List.append_assoc, List.singleton_append, lex_number d (fuel + 1) _ hend, h2,
      Option.map_map]
    rfl

theorem lexesTo_scalar_comma (v : Scalar) :
    LexesTo (stringifyScalar v ++ [44]) [v.token, Token.comma] := by
  cases v with
  | num d => exact lexesTo_number_delim d 44 Token.comma (Or.inr ⟨rfl, rfl⟩)
  | str s =>
    exact (lexesTo_string s).append
      (lexesTo_punct 44 Token.comma (Or.inr (Or.inr (Or.inr (Or.inr (Or.inl ⟨rfl, rfl⟩))))))

theorem lexesTo_lbracket : LexesTo [91] [Token.lbracket] :=
  lexesTo_punct 91 _ (Or.inl ⟨rfl, rfl⟩)

theorem lexesTo_rbracket : LexesTo [93] [Token.rbracket] :=
  lexesTo_punct 93 _ (Or.inr (Or.inl ⟨rfl, rfl⟩))

theorem lexesTo_lbrace : LexesTo [123] [Token.lbrace] :=
  lexesTo_punct 123 _ (Or.inr (Or.inr (Or.inl ⟨rfl, rfl⟩)))

theorem lexesTo_rbrace : LexesTo [125] [Token.rbrace] :=
  lexesTo_punct 125 _ (Or.inr (Or.inr (Or.inr (Or.inl ⟨rfl, rfl⟩))))

theorem lexesTo_comma : LexesTo [44] [Token.comma] :=
  lexesTo_punct 44 _ (Or.inr (Or.inr (Or.inr (Or.inr (Or.inl ⟨rfl, rfl⟩)))))

theorem lexesTo_colon : LexesTo [58] [Token.colon] :=
  lexesTo_punct 58 _ (Or.inr (Or.inr (Or.inr (Or.inr (Or.inr ⟨rfl, rfl⟩)))))

theorem lexesTo_point (p : Point) : LexesTo (stringifyPoint p) (pointTokens p) := by
  have h := lexesTo_lbracket.append
    ((lexesTo_number_delim p.1 44 Token.comma (Or.inr ⟨rfl, rfl⟩)).append
      (lexesTo_number_delim p.2 93 Token.rbracket (Or.inl ⟨rfl, rfl⟩)))
  simpa [stringifyPoint, pointTokens, List.append_assoc] using h

theorem joinComma_cons_cons (x y : List Nat) (rest : List (List Nat)) :
    joinComma (x :: y :: rest) = x ++ 44 :: joinComma (y :: rest) := rfl

theorem lexesTo_points_cons (ps : List Point) :
    ∀ p : Point, LexesTo (joinComma ((p :: ps).map stringifyPoint) ++ [93])
      (pointTokens p ++ pointsTailTokens ps) := by
  induction ps with
  | nil =>
    intro p
    exact (lexesTo_point p).append lexesTo_rbracket
  | cons q qs ih =>
    intro p
    have h := (lexesTo_point p).append (lexesTo_comma.append (ih q))
    simpa [joinComma_cons_cons, pointsTailTokens, List.append_assoc] using h

theorem lexesTo_points (ps : List Point) :
    LexesTo (joinComma (ps.map stringifyPoint) ++ [93]) (pointsTokens ps) := by
  cases ps with
  | nil => exact lexesTo_rbracket
  | cons p qs => exact lexesTo_points_cons qs p

theorem lexesTo_stroke (l : Stroke) : LexesTo (stringifyStroke l) (strokeTokens l) := by
  have h := lexesTo_lbrace.append ((lexesTo_string (js "color")).append (lexesTo_colon.append
    ((lexesTo_string l.color).append (lexesTo_comma.append
    ((lexesTo_string (js "lineWidth")).append (lexesTo_colon.append
    ((lexesTo_scalar_comma l.lineWidth).append
    ((lexesTo_string (js "opacity")).append (lexesTo_colon.append
    ((lexesTo_scalar_comma l.opacity).append
    ((lexesTo_string (js "points")).append (lexesTo_colon.append
    (lexesTo_lbracket.append ((lexesTo_points l.points).append lexesTo_rbrace))))))))))))))
  simpa only [stringifyStroke, strokeTokens, List.append_assoc, List.singleton_append,
    List.cons_append, List.nil_append] using h

theorem lexesTo_lines_cons (ls : List Stroke) :
    ∀ l : Stroke, LexesTo (joinComma ((l :: ls).map stringifyStroke) ++ [93])
      (strokeTokens l ++ linesTailTokens ls) := by
  induction ls with
  | nil =>
    intro l
    exact (lexesTo_stroke l).append lexesTo_rbracket
  | cons m ms ih =>
    intro l
    have h := (lexesTo_stroke l).append (lexesTo_comma.append (ih m))
    simpa only [List.map_cons, joinComma_cons_cons, linesTailTokens, List.append_assoc,
      List.singleton_append, List.cons_append, List.nil_append] using h

theorem lexesTo_lines (ls : List Stroke) : LexesTo (JSON_stringify ls) (linesTokens ls) := by
  cases ls with
  | nil => exact lexesTo_lbracket.append lexesTo_rbracket
  | cons l ms =>
    have h := lexesTo_lbracket.append (lexesTo_lines_cons ms l)
    simpa only [JSON_stringify, linesTokens, List.append_assoc, List.singleton_append,
      List.cons_append, List.nil_append] using h

theorem lex_fuel_succ (fuel : Nat) :
    ∀ (t : List Nat) (ts : List Token), lex fuel t = some ts → lex (fuel + 1) t = some ts := by
  induction fuel with
  | zero =>
    intro t ts h
    cases t with
    | nil => exact h
    | cons c rest => exact absurd h (by simp [show lex 0 (c :: rest) = none from rfl])
  | succ n ih =>
    intro t ts h
    cases t with
    | nil => exact h
    | cons c rest =>
      have hmap : ∀ (r : List Nat) (tok : Token) (out : List Token),
          (lex n r).map (fun ts => tok :: ts) = some out →
          (lex (n + 1) r).map (fun ts => tok :: ts) = some out := by
        intro r tok out hr
        cases hl : lex n r with
        | none => rw [hl] at hr; exact absurd hr (by simp)
        | some v => rw [ih r v hl]; rw [hl] at hr; exact hr
      rw [lex_succ_cons] at h ⊢
      by_cases hws : isWhitespace c = true
      · rw [if_pos hws] at h ⊢
        exact ih _ _ h
      rw [if_neg hws] at h ⊢
      by_cases hp0 : c = 91
      · rw [if_pos hp0] at h ⊢
        exact hmap _ _ _ h
      rw [if_neg hp0] at h ⊢
      by_cases hp1 : c = 93
      · rw [if_pos hp1] at h ⊢
        exact hmap _ _ _ h
      rw [if_neg hp1] at h ⊢
      by_cases hp2 : c = 123
      · rw [if_pos hp2] at h ⊢
        exact hmap _ _ _ h
      rw [if_neg hp2] at h ⊢
      by_cases hp3 : c = 125
      · rw [if_pos hp3] at h ⊢
        exact hmap _ _ _ h
      rw [if_neg hp3] at h ⊢
      by_cases hp4 : c = 44
      · rw [if_pos hp4] at h ⊢
        exact hmap _ _ _ h
      rw [if_neg hp4] at h ⊢
      by_cases hp5 : c = 58
      · rw [if_pos hp5] at h ⊢
        exact hmap _ _ _ h
      rw [if_neg hp5] at h ⊢
      by_cases hq : c = 34
      · rw [if_pos hq] at h ⊢
        cases hs : lexStringBody rest with
        | none => rw [hs] at h; exact absurd h (by simp)
        | some v =>
          obtain ⟨s, r⟩ := v
          rw [hs] at h
          exact hmap _ _ _ h
      rw [if_neg hq] at h ⊢
      by_cases hn : (c = 45 || isDigit c) = true
      · rw [if_pos hn] at h ⊢
        cases hs : lexNumber (c :: rest) with
        | none => rw [hs] at h; exact absurd h (by simp)
        | some v =>
          obtain ⟨d, r⟩ := v
          rw [hs] at h
          exact hmap _ _ _ h
      rw [if_neg hn] at h ⊢
      by_cases hw0 : c = 116
      · rw [if_pos hw0] at h ⊢
        cases hs : stripWord _ rest with
        | none => rw [hs] at h; exact absurd h (by simp)
        | some r =>
          rw [hs] at h
          exact hmap _ _ _ h
      rw [if_neg hw0] at h ⊢
      by_cases hw1 : c = 102
      · rw [if_pos hw1] at h ⊢
        cases hs : stripWord _ rest with
        | none => rw [hs] at h; exact absurd h (by simp)
        | some r =>
          rw [hs] at h
          exact hmap _ _ _ h
      rw [if_neg hw1] at h ⊢
      by_cases hw2 : c = 110
      · rw [if_pos hw2] at h ⊢
        cases hs : stripWord _ rest with
        | none => rw [hs] at h; exact absurd h (by simp)
        | some r =>
          rw [hs] at h
          exact hmap _ _ _ h
      rw [if_neg hw2] at h ⊢
      exact h

theorem lex_fuel_mono (fuel extra : Nat) (t : List Nat) (ts : List Token)
    (h : lex fuel t = some ts) : lex (fuel + extra) t = some ts := by
  induction extra with
  | zero => exact h
  | succ k ih => exact lex_fuel_succ _ _ _ ih

theorem lex_stringify (ls : List Stroke) :
    lex ((JSON_stringify ls).length + 1) (JSON_stringify ls) = some (linesTokens ls) := by
  obtain ⟨hlen, hlex⟩ := lexesTo_lines ls
  have h0 := hlex 0 []
  simp only [List.append_nil, Nat.zero_add] at h0
  have h1 : lex (linesTokens ls).length (JSON_stringify ls) = some (linesTokens ls) := by
    rw [h0]
    simp [show lex 0 [] = some [] from rfl]
  have h2 := lex_fuel_mono _ ((JSON_stringify ls).length + 1 - (linesTokens ls).length) _ _ h1
  have e : (linesTokens ls).length +
      ((JSON_stringify ls).length + 1 - (linesTokens ls).length) =
      (JSON_stringify ls).length + 1 := by omega
  rw [e] at h2
  exact h2

/-! ## The fuel of the lexer is never exhausted -/

theorem spanDigits_append (t : List Nat) : (spanDigits t).1 ++ (spanDigits t).2 = t := by
  induction t with
  | nil => rfl
  | cons c r ih =>
    rw [spanDigits]
    split
    · simp [ih]
    · rfl

theorem spanDigits_length (t : List Nat) :
    (spanDigits t).1.length + (spanDigits t).2.length = t.length := by
  have h := congrArg List.length (spanDigits_append t)
  simpa [List.length_append] using h

theorem lexStringBody_map_length (t : List Nat) (u : Nat) (s : JSString) (r : List Nat)
    (ih : ∀ (s2 : JSString) (r2 : List Nat), lexStringBody t = some (s2, r2) →
      r2.length < t.length)
    (h : (lexStringBody t).map (fun q => (u :: q.1, q.2)) = some (s, r)) :
    r.length < t.length := by
  cases hl : lexStringBody t with
  | none => rw [hl] at h; cases h
  | some q =>
    obtain ⟨s2, r2⟩ := q
    rw [hl] at h
    simp only [Option.map_some', Option.some.injEq, Prod.mk.injEq] at h
    rw [← h.2]
    exact ih s2 r2 hl

theorem lexStringBody_length (n : Nat) :
    ∀ (t : List Nat), t.length ≤ n → ∀ (s : JSString) (r : List Nat),
      lexStringBody t = some (s, r) → r.length < t.length := by
  induction n with
  | zero =>
    intro t ht s r h
    cases t with
    | nil => unfold lexStringBody at h; cases h
    | cons c rest => simp at ht
  | succ n ih =>
    intro t ht s r h
    cases t with
    | nil => unfold lexStringBody at h; cases h
    | cons c rest =>
      have hrest : rest.length ≤ n := by simpa using ht
      unfold lexStringBody at h
      by_cases h34 : c = 34
      · rw [if_pos h34] at h
        simp only [Option.some.injEq, Prod.mk.injEq] at h
        rw [← h.2]
        simp
      rw [if_neg h34] at h
      by_cases h92 : c = 92
      · rw [if_pos h92] at h
        cases rest with
        | nil => cases h
        | cons e r1 =>
          simp only at h
          by_cases h117 : e = 117
          · rw [if_pos h117] at h
            match r1, h with
            | h1 :: h2 :: h3 :: h4 :: r4, h =>
              simp only at h
              split at h
              · have := lexStringBody_map_length r4 _ s r
                  (ih r4 (by simp at hrest ⊢; omega)) h
                simp only [List.length_cons]
                omega
              · cases h
            | [], h => cases h
            | [_], h => cases h
            | [_, _], h => cases h
            | [_, _, _], h => cases h
          · rw [if_neg h117] at h
            split at h
            · have := lexStringBody_map_length r1 _ s r
                (ih r1 (by simp at hrest ⊢; omega)) h
              simp only [List.length_cons]
              omega
            · cases h
      rw [if_neg h92] at h
      by_cases h32 : c < 32
      · rw [if_pos h32] at h
        cases h
      rw [if_neg h32] at h
      have := lexStringBody_map_length rest _ s r (ih rest hrest) h
      simp only [List.length_cons]
      omega

theorem spanDigits_snd_length (t : List Nat) : (spanDigits t).2.length ≤ t.length := by
  have := spanDigits_length t
  omega

theorem lexExponent_length (t : List Nat) (e : Int) (r : List Nat)
    (h : lexExponent t = some (e, r)) : r.length ≤ t.length := by
  unfold lexExponent at h
  cases t with
  | nil =>
    simp only [Option.some.injEq, Prod.mk.injEq] at h
    rw [← h.2]
  | cons c r1 =>
    simp only at h
    split at h
    · cases r1 with
      | nil => cases h
      | cons sg r2 =>
        simp only at h
        have h2 := spanDigits_snd_length r2
        have h1 := spanDigits_snd_length (sg :: r2)
        simp only [List.length_cons] at h1 ⊢
        split at h
        · split at h
          · cases h
          · simp only [Option.some.injEq, Prod.mk.injEq] at h
            rw [← h.2]
            omega
        · split at h
          · split at h
            · cases h
            · simp only [Option.some.injEq, Prod.mk.injEq] at h
              rw [← h.2]
              omega
          · split at h
            · cases h
            · simp only [Option.some.injEq, Prod.mk.injEq] at h
              rw [← h.2]
              omega
    · simp only [Option.some.injEq, Prod.mk.injEq] at h
      rw [← h.2]

theorem lexFraction_length (t fd r : List Nat)
    (h : lexFraction t = some (fd, r)) : r.length ≤ t.length := by
  unfold lexFraction at h
  cases t with
  | nil =>
    simp only [Option.some.injEq, Prod.mk.injEq] at h
    rw [← h.2]
  | cons c r1 =>
    simp only at h
    split at h
    · split at h
      · cases h
      · simp only [Option.some.injEq] at h
        have h1 := spanDigits_snd_length r1
        rw [h] at h1
        simp only [List.length_cons] at h1 ⊢
        omega
    · simp only [Option.some.injEq, Prod.mk.injEq] at h
      rw [← h.2]

theorem lexUnsigned_length (t : List Nat) (m e : Int) (r : List Nat)
    (h : lexUnsigned t = some (m, e, r)) : r.length < t.length := by
  unfold lexUnsigned at h
  simp only at h
  split at h
  · cases h
  · rename_i hip
    split at h
    · cases h
    · split at h
      · cases h
      · rename_i fd s3 hf
        split at h
        · cases h
        · rename_i e2 s4 he
          simp only [Option.some.injEq, Prod.mk.injEq] at h
          rw [← h.2.2]
          have h1 := lexFraction_length _ _ _ hf
          have h2 := lexExponent_length _ _ _ he
          have h3 := spanDigits_length t
          have h4 : 0 < (spanDigits t).1.length := List.length_pos.mpr hip
          omega

theorem lexNumber_length (t : List Nat) (d : Dec) (r : List Nat)
    (h : lexNumber t = some (d, r)) : r.length < t.length := by
  unfold lexNumber at h
  split at h
  · split at h
    · rename_i m e s hu
      simp only [Option.some.injEq, Prod.mk.injEq] at h
      rw [← h.2]
      have := lexUnsigned_length _ _ _ _ hu
      have : t.tail.length ≤ t.length := by simp
      omega
    · cases h
  · split at h
    · rename_i m e s hu
      simp only [Option.some.injEq, Prod.mk.injEq] at h
      rw [← h.2]
      exact lexUnsigned_length _ _ _ _ hu
    · cases h

theorem stripWord_length (w : List Nat) :
    ∀ (t r : List Nat), stripWord w t = some r → r.length ≤ t.length := by
  induction w with
  | nil =>
    intro t r h
    simp only [stripWord, Option.some.injEq] at h
    rw [h]
  | cons a ws ih =>
    intro t r h
    cases t with
    | nil => simp [stripWord] at h
    | cons c t2 =>
      simp only [stripWord] at h
      split at h
      · have := ih t2 r h
        simp only [List.length_cons]
        omega
      · cases h

/-- With more fuel than the text has code units the lexer never runs out of fuel: the
result is the same for all such amounts. -/
theorem lex_fuel_enough (n : Nat) :
    ∀ (t : List Nat), t.length ≤ n → ∀ f1 f2 : Nat, n < f1 → n < f2 → lex f1 t = lex f2 t := by
  induction n with
  | zero =>
    intro t ht f1 f2 h1 h2
    cases t with
    | nil => cases f1 <;> cases f2 <;> rfl
    | cons c rest => simp at ht
  | succ n ih =>
    intro t ht f1 f2 h1 h2
    cases t with
    | nil => cases f1 <;> cases f2 <;> rfl
    | cons c rest =>
      have hrest : rest.length ≤ n := by simpa using ht
      obtain ⟨g1, rfl⟩ : ∃ g, f1 = g + 1 := ⟨f1 - 1, by omega⟩
      obtain ⟨g2, rfl⟩ : ∃ g, f2 = g + 1 := ⟨f2 - 1, by omega⟩
      have key : ∀ r : List Nat, r.length ≤ rest.length → lex g1 r = lex g2 r :=
        fun r hr => ih r (by omega) g1 g2 (by omega) (by omega)
      rw [lex_succ_cons, lex_succ_cons, key rest (le_refl _)]
      have hs : (match lexStringBody rest with
          | some (s, r) => (lex g1 r).map (fun ts => Token.str s :: ts)
          | none => none) =
          (match lexStringBody rest with
          | some (s, r) => (lex g2 r).map (fun ts => Token.str s :: ts)
          | none => none) := by
        cases hl : lexStringBody rest with
        | none => rfl
        | some q =>
          obtain ⟨s, r⟩ := q
          simp only
          rw [key r (le_of_lt (lexStringBody_length _ rest (le_refl _) s r hl))]
      have hnum : (match lexNumber (c :: rest) with
          | some (d, r) => (lex g1 r).map (fun ts => Token.num d :: ts)
          | none => none) =
          (match lexNumber (c :: rest) with
          | some (d, r) => (lex g2 r).map (fun ts => Token.num d :: ts)
          | none => none) := by
        cases hl : lexNumber (c :: rest) with
        | none => rfl
        | some q =>
          obtain ⟨d, r⟩ := q
          simp only
          have := lexNumber_length _ d r hl
          rw [key r (by simp only [List.length_cons] at this; omega)]
      have hword : ∀ (w : List Nat) (tok : Token), (match stripWord w rest with
          | some r => (lex g1 r).map (fun ts => tok :: ts)
          | none => none) =
          (match stripWord w rest with
          | some r => (lex g2 r).map (fun ts => tok :: ts)
          | none => none) := by
        intro w tok
        cases hl : stripWord w rest with
        | none => rfl
        | some r =>
          simp only
          rw [key r (stripWord_length w rest r hl)]
      rw [hs, hnum, hword (js "rue"), hword (js "alse"), hword (js "ull")]

/-- The fuel `JSON_parse` gives the lexer is enough for every text. -/
theorem lex_any_fuel (t : List Nat) (extra : Nat) :
    lex (t.length + 1 + extra) t = lex (t.length + 1) t :=
  lex_fuel_enough t.length t (le_refl _) _ _ (by omega) (by omega)

/-! ## The tokens of a stroke array are one JSON value -/

theorem accepts_point (stack : List Frame) (p : Point) (rest : List Token) :
    accepts Expect.value stack (pointTokens p ++ rest) = accepts Expect.next stack rest ∧
    accepts Expect.valueOrClose stack (pointTokens p ++ rest) =
      accepts Expect.next stack rest :=
  ⟨rfl, rfl⟩

theorem accepts_pointsTail (ps : List Point) (stack : List Frame) (rest : List Token) :
    accepts Expect.next (Frame.arr :: stack) (pointsTailTokens ps ++ rest) =
      accepts Expect.next stack rest := by
  induction ps with
  | nil => rfl
  | cons p qs ih =>
    show accepts Expect.next (Frame.arr :: stack)
      (Token.comma :: (pointTokens p ++ (pointsTailTokens qs ++ rest))) = _
    rw [← ih]
    exact (accepts_point (Frame.arr :: stack) p _).1

theorem accepts_points (ps : List Point) (stack : List Frame) (rest : List Token) :
    accepts Expect.valueOrClose (Frame.arr :: stack) (pointsTokens ps ++ rest) =
      accepts Expect.next stack rest := by
  cases ps with
  | nil => rfl
  | cons p qs =>
    rw [← accepts_pointsTail qs stack rest]
    show accepts Expect.valueOrClose (Frame.arr :: stack)
      (pointTokens p ++ (pointsTailTokens qs ++ rest)) = _
    exact (accepts_point (Frame.arr :: stack) p _).2

theorem accepts_stroke (l : Stroke) (stack : List Frame) (rest : List Token) :
    accepts Expect.value stack (strokeTokens l ++ rest) = accepts Expect.next stack rest ∧
    accepts Expect.valueOrClose stack (strokeTokens l ++ rest) =
      accepts Expect.next stack rest := by
  have hp := accepts_points l.points (Frame.obj :: stack) (Token.rbrace :: rest)
  have hr : accepts Expect.next (Frame.obj :: stack) (Token.rbrace :: rest) =
      accepts Expect.next stack rest := rfl
  rw [hr] at hp
  obtain ⟨color, lineWidth, opacity, points⟩ := l
  simp only [strokeTokens, List.append_assoc, List.singleton_append] at hp ⊢
  rw [← hp]
  cases lineWidth <;> cases opacity <;> exact ⟨rfl, rfl⟩

theorem accepts_linesTail (ls : List Stroke) :
    accepts Expect.next [Frame.arr] (linesTailTokens ls) = true := by
  induction ls with
  | nil => rfl
  | cons l ms ih =>
    rw [← ih]
    show accepts Expect.next [Frame.arr] (Token.comma :: (strokeTokens l ++ linesTailTokens ms)) = _
    exact (accepts_stroke l [Frame.arr] _).1

theorem validJSON_linesTokens (ls : List Stroke) : validJSON (linesTokens ls) = true := by
  cases ls with
  | nil => rfl
  | cons l ms =>
    rw [← accepts_linesTail ms]
    show accepts Expect.valueOrClose [Frame.arr] (strokeTokens l ++ linesTailTokens ms) = _
    exact (accepts_stroke l [Frame.arr] _).2

/-! ## The tokens decode to the stroke list -/

theorem decodePointsTail_tokens (ps : List Point) (rest : List Token) :
    decodePointsTail (pointsTailTokens ps ++ rest) = some (ps, rest) := by
  induction ps with
  | nil => rfl
  | cons p qs ih =>
    show decodePointsTail (Token.comma :: Token.lbracket :: Token.num p.1 :: Token.comma ::
      Token.num p.2 :: Token.rbracket :: (pointsTailTokens qs ++ rest)) = _
    rw [decodePointsTail, ih]
    rfl

theorem decodePoints_tokens (ps : List Point) (rest : List Token) :
    decodePoints (pointsTokens ps ++ rest) = some (ps, rest) := by
  cases ps with
  | nil => rfl
  | cons p qs =>
    show decodePoints (Token.lbracket :: Token.num p.1 :: Token.comma ::
      Token.num p.2 :: Token.rbracket :: (pointsTailTokens qs ++ rest)) = _
    rw [decodePoints, decodePointsTail_tokens]
    rfl

theorem decodeScalar_token (v : Scalar) : decodeScalar v.token = some v := by
  cases v <;> rfl

theorem decodeStroke_tokens (l : Stroke) (rest : List Token) :
    decodeStroke (strokeTokens l ++ rest) = some (l, rest) := by
  show decodeStroke (Token.lbrace :: Token.str (js "color") :: Token.colon ::
    Token.str l.color :: Token.comma :: Token.str (js "lineWidth") :: Token.colon ::
    l.lineWidth.token :: Token.comma :: Token.str (js "opacity") :: Token.colon ::
    l.opacity.token :: Token.comma :: Token.str (js "points") :: Token.colon ::
    Token.lbracket :: ((pointsTokens l.points ++ [Token.rbrace]) ++ rest)) = _
  rw [decodeStroke]
  simp only [and_self, if_true, decodeScalar_token, List.append_assoc, decodePoints_tokens,
    List.singleton_append]

theorem decodeLinesTail_tokens (ls : List Stroke) :
    ∀ fuel : Nat, ls.length ≤ fuel → decodeLinesTail fuel (linesTailTokens ls) = some ls := by
  induction ls with
  | nil =>
    intro fuel _
    cases fuel <;> rfl
  | cons l ms ih =>
    intro fuel hf
    obtain ⟨f, rfl⟩ : ∃ f, fuel = f + 1 := ⟨fuel - 1, by simp at hf; omega⟩
    show decodeLinesTail (f + 1) (Token.comma :: (strokeTokens l ++ linesTailTokens ms)) = _
    rw [decodeLinesTail, decodeStroke_tokens]
    simp only
    rw [ih f (by simp at hf; omega)]
    rfl

theorem linesTailTokens_length (ls : List Stroke) : ls.length ≤ (linesTailTokens ls).length := by
  induction ls with
  | nil => simp [linesTailTokens]
  | cons l ms ih =>
    simp only [linesTailTokens, List.length_cons, List.length_append]
    omega

theorem decodeLines_tokens (ls : List Stroke) : decodeLines (linesTokens ls) = some ls := by
  cases ls with
  | nil => rfl
  | cons l ms =>
    have h1 := decodeStroke_tokens l (linesTailTokens ms)
    have h2 := decodeLinesTail_tokens ms _ (linesTailTokens_length ms)
    show decodeLines (Token.lbracket :: Token.lbrace :: _) = _
    have hd : ∀ X : List Token, decodeLines (Token.lbracket :: Token.lbrace :: X) =
        match decodeStroke (Token.lbrace :: X) with
        | some (l, r2) => (decodeLinesTail r2.length r2).map (fun ls => l :: ls)
        | none => none := fun X => rfl
    rw [hd]
    change (match decodeStroke (strokeTokens l ++ linesTailTokens ms) with
      | some (l, r2) => (decodeLinesTail r2.length r2).map (fun ls => l :: ls)
      | none => none) = _
    rw [h1]
    simp only
    rw [h2]
    rfl

/-- The round trip of the stroke list through `JSON.stringify` and `JSON.parse`. -/
theorem JSON_parse_stringify (ls : List Stroke) :
    JSON_parse (JSON_stringify ls) = Parsed.lines ls := by
  unfold JSON_parse
  rw [lex_stringify]
  simp only [validJSON_linesTokens, if_true, decodeLines_tokens]

theorem JSON_stringify_truthy (ls : List Stroke) :
    truthy (some (JSON_stringify ls)) = true := rfl

/-! ## Persistence -/

theorem truthy_of_ne_nil (v : JSString) (h : v ≠ []) : truthy (some v) = true := by
  cases v with
  | nil => exact absurd rfl h
  | cons c r => rfl

theorem redrawCanvas_document (s : State) : (redrawCanvas s).state.document = s.document := by
  rw [redrawCanvas_state]
  rfl

theorem loadHandler_lines (s : State) (text c : JSString) (ls : List Stroke)
    (htext : s.localStorage.allLines = some text) (hne : truthy (some text) = true)
    (hparse : JSON_parse text = Parsed.lines ls)
    (hcolor : s.localStorage.canvasColor = some c) (hc : truthy (some c) = true) :
    (loadHandler s).map (fun o => o.state.document) =
      some { background := c, strokes := ls } := by
  unfold loadHandler
  by_cases hn : truthy s.localStorage.savedNotes = true
  · simp only [hn, if_true, htext, hne, Option.getD_some, hparse, hcolor, hc,
      Option.map_some', redrawCanvas_document]
    rfl
  · simp only [hn, Bool.false_eq_true, if_false, htext, hne, if_true, Option.getD_some, hparse,
      hcolor, hc, Option.map_some', redrawCanvas_document]
    rfl

theorem loadHandler_after_save (s : State) (page : Page) (hbackground : s.canvasColor ≠ []) :
    (loadHandler (initialState page (saveDrawingData s).localStorage)).map
      (fun o => o.state.document) = some s.document :=
  loadHandler_lines _ (JSON_stringify s.allLines) s.canvasColor s.allLines rfl
    (JSON_stringify_truthy _) (JSON_parse_stringify _) rfl
    (truthy_of_ne_nil s.canvasColor hbackground)

/-- C2: for every Document (its background a colour string, hence not the empty string),
persisting it with `saveDrawingData` and loading it with the `load` listener of a fresh
page restores an equal Document: same background, same strokes in the same order, same
points in the same order. -/
theorem save_then_load_restores_document (s : State) (page : Page)
    (hbackground : s.canvasColor ≠ []) :
    ∃ o : Outcome,
      loadHandler (initialState page (saveDrawingData s).localStorage) = some o ∧
      o.state.document = s.document := by
  have key := loadHandler_after_save s page hbackground
  cases hl : loadHandler (initialState page (saveDrawingData s).localStorage) with
  | none => rw [hl] at key; cases key
  | some o =>
    rw [hl] at key
    exact ⟨o, rfl, by simpa using key⟩

/-- C2 on a Document with two strokes. -/
theorem save_then_load_restores_document_witness :
    exampleTwoStrokes.canvasColor ≠ [] ∧
    ∃ o : Outcome,
      loadHandler (initialState examplePage (saveDrawingData exampleTwoStrokes).localStorage) =
        some o ∧
      o.state.document = exampleTwoStrokes.document :=
  ⟨by decide, save_then_load_restores_document exampleTwoStrokes examplePage (by decide)⟩

set_option maxRecDepth 20000 in
/-- C3, as stated, fails: with the persisted text of `saveDrawingData` cut short by one
code unit (it is not JSON), the `load` listener raises a `SyntaxError`. -/
theorem loadHandler_raises_on_truncated_text :
    JSON_parse exampleTruncatedText = Parsed.syntaxError ∧
    (loadHandler (initialState examplePage
      { emptyStorage with allLines := some exampleTruncatedText })).map (fun o => o.error) =
      some (some JSError.syntaxError) := by
  decide

theorem loadHandler_syntaxError (s : State) (text : JSString)
    (htext : s.localStorage.allLines = some text) (hne : text ≠ [])
    (hbad : JSON_parse text = Parsed.syntaxError) :
    ∃ o : Outcome, loadHandler s = some o ∧ o.error = some JSError.syntaxError ∧
      o.state.document = s.document ∧ o.state.ctx = s.ctx := by
  have ht := truthy_of_ne_nil text hne
  have hl : loadHandler s = some
      { state := if truthy s.localStorage.savedNotes then
          { s with notesTextarea_value := s.localStorage.savedNotes.getD [] } else s,
        error := some JSError.syntaxError } := by
    unfold loadHandler
    have h1 : (if truthy s.localStorage.savedNotes = true then
        { s with notesTextarea_value := s.localStorage.savedNotes.getD [] }
        else s).localStorage.allLines = some text := by
      split <;> exact htext
    simp only [h1, ht, if_true, Option.getD_some, hbad]
  refine ⟨_, hl, rfl, ?_, ?_⟩
  · simp only
    split <;> rfl
  · simp only
    split <;> rfl

theorem redrawCanvas_error_nil (s : State) (h : s.allLines = []) :
    (redrawCanvas s).error = none := by
  unfold redrawCanvas
  simp only [fillCanvasBackground, h, forEachLine]

theorem loadHandler_empty_text (s : State) (htext : s.localStorage.allLines = some [])
    (hlines : s.allLines = []) :
    ∃ o : Outcome, loadHandler s = some o ∧ o.error = none ∧ o.state.allLines = [] := by
  have key : (loadHandler s).map (fun o => (o.error, o.state.allLines)) = some (none, []) := by
    have he : truthy (some ([] : JSString)) = false := rfl
    unfold loadHandler
    by_cases hn : truthy s.localStorage.savedNotes = true <;>
      by_cases hcol : truthy s.localStorage.canvasColor = true <;>
      simp only [hn, hcol, htext, he, Bool.false_eq_true, if_false, if_true,
        Option.map_some', redrawCanvas_allLines, Option.some.injEq, Prod.mk.injEq] <;>
      exact ⟨redrawCanvas_error_nil _ hlines, hlines⟩
  cases hl : loadHandler s with
  | none => rw [hl] at key; cases key
  | some o =>
    rw [hl] at key
    simp only [Option.map_some', Option.some.injEq, Prod.mk.injEq] at key
    exact ⟨o, rfl, key.1, key.2⟩

/-- C3, amended: for every persisted `allLines` text that is not empty and not JSON, the
`load` listener raises the `SyntaxError` of `JSON.parse`, which it does not catch; at that
point the Document in memory is the default one (white background, no stroke), the saved
background is not read and nothing is painted. -/
theorem loadHandler_on_malformed_text (page : Page) (storage : Storage) (text : JSString)
    (htext : storage.allLines = some text) (hne : text ≠ [])
    (hbad : JSON_parse text = Parsed.syntaxError) :
    ∃ o : Outcome, loadHandler (initialState page storage) = some o ∧
      o.error = some JSError.syntaxError ∧
      o.state.document = { background := js "#FFFFFF", strokes := [] } ∧
      o.state.ctx = [] :=
  loadHandler_syntaxError (initialState page storage) text htext hne hbad

set_option maxRecDepth 20000 in
/-- C3, amended, on the persisted text cut short by one code unit. -/
theorem loadHandler_on_malformed_text_witness :
    ({ emptyStorage with allLines := some exampleTruncatedText } : Storage).allLines =
      some exampleTruncatedText ∧
    exampleTruncatedText ≠ [] ∧
    JSON_parse exampleTruncatedText = Parsed.syntaxError ∧
    ∃ o : Outcome, loadHandler (initialState examplePage
        { emptyStorage with allLines := some exampleTruncatedText }) = some o ∧
      o.error = some JSError.syntaxError ∧
      o.state.document = { background := js "#FFFFFF", strokes := [] } ∧
      o.state.ctx = [] :=
  ⟨rfl, by decide, by decide,
    loadHandler_on_malformed_text examplePage
      { emptyStorage with allLines := some exampleTruncatedText } exampleTruncatedText rfl
      (by decide) (by decide)⟩

end DrawingPad
